import Mathlib

/-!
# Verification development for `validation` (Go)

Shallow embedding of `validation.go`: the rule registry (`Rules`, `New`, `Add`,
`AddRequired`), the key/value validator (`ValidateKeyValue`, `Validate`), the
reflective structural validator (`ValidateStruct`, `validateStructWithKeyPrefix`) and the
built-in rules (`NotEmpty`, `Url`, `ObjectId`, `Alpha`, `Email`, `Numeric`, `ZipCode`,
`EqualsAny`, `Sha1`, `MatchExpr`; `Date`, which wraps `time.Parse`, is not modelled).

Modelling conventions
* A Go `error` is an `Option String`: `none` is `nil`, `some msg` is a non-nil error
  whose `Error()` text is `msg`.
* A Go `map[string]T` is a list of entries (`GoMap`), read with `GoMap.get?` and written
  with `GoMap.set`; the list order plays the part of one enumeration order of the map.
* A run-time panic is the result `none` of an `Option`-valued function.
* `regexp.MatchString` is a matcher by derivatives over the syntax tree of each pattern; the
  classes under the flag `(?i)` are written out with the case-folded runes the parser adds.
* A registry is one built by `New`, `Add` and `AddRequired`: its map is not nil, and its
  rules are total functions (a rule that panics, or a nil rule, is not modelled).
-/

namespace Validation

/-! ## Go values used by the program -/

/-- Go `error`: `none` is the nil error, `some msg` an error with `Error() = msg`. -/
abbrev GoError := Option String

/-- Go `map[string]α`, as the list of its entries in one enumeration order. -/
abbrev GoMap (α : Type) := List (String × α)

namespace GoMap

/-- The lookup `m[k]` with its presence flag (`v, ok := m[k]`). -/
def get? {α : Type} : GoMap α → String → Option α
  | [], _ => none
  | (k', v) :: t, k => if k' = k then some v else get? t k

/-- The assignment `m[k] = v`: overwrite the entry of `k`, or add a new one. -/
def set {α : Type} : GoMap α → String → α → GoMap α
  | [], k, v => [(k, v)]
  | (k', v') :: t, k, v => if k' = k then (k, v) :: t else (k', v') :: set t k v

/-- The keys of the map, in enumeration order. -/
def keys {α : Type} (m : GoMap α) : List String := m.map Prod.fst

end GoMap

/-- The builtin `len` on a string: its number of bytes. -/
def len (s : String) : Nat := s.utf8ByteSize

/-! ## Data model (`validation.go`, lines 16-35) -/

/-- Validation function: `type Rule func(string) error`. -/
abbrev Rule := String → GoError

/-- A rule with its optional override message: `type Constraint struct`. -/
structure Constraint where
  Rule : Rule
  Message : GoError

/-- A set of validation rules: `type Rules struct { Map map[string][]Constraint }`. -/
structure Rules where
  Map : GoMap (List Constraint)

/-- Constructor `New`: a registry with an empty map. -/
def New : Rules := { Map := [] }

/-! ## Key/value validation (lines 44-79) -/

/-- One iteration of the loop of `ValidateKeyValue` over the state `(passed, errors)`. -/
def checkConstraint (value : String) (st : Bool × List String) (constraint : Constraint) :
    Bool × List String :=
  match constraint.Rule value with
  | some test =>
    let error := match constraint.Message with
      | some m => m
      | none => test
    (false, st.2 ++ [error])
  | none => st

/-- Method `Rules.ValidateKeyValue`. -/
def ValidateKeyValue (self : Rules) (key value : String) : Bool × List String :=
  match self.Map.get? key with
  | some constraints => constraints.foldl (checkConstraint value) (true, [])
  | none => (true, [])

/-- One iteration of the loop of `Validate` over the state `(valid, messages)`. -/
def validateEntry (self : Rules) (params : GoMap String)
    (st : Bool × GoMap (List String)) (key : String) : Bool × GoMap (List String) :=
  let value := (params.get? key).getD ""
  let r := ValidateKeyValue self key value
  if r.1 = false then (false, st.2.set key r.2) else st

/-- Method `Rules.Validate`: the keys of `params` are visited in enumeration order. -/
def Validate (self : Rules) (params : GoMap String) : Bool × GoMap (List String) :=
  params.keys.foldl (validateEntry self params) (true, [])

/-! ## Registration (lines 128-156) -/

/-- Method `Rules.Add`. -/
def Add (self : Rules) (name : String) (rule : Rule) (message : String) : Rules :=
  let constraints : List Constraint :=
    match self.Map.get? name with
    | some cs => cs
    | none => []
  let constraint : Constraint :=
    if len message > 0 then { Rule := rule, Message := some message }
    else { Rule := rule, Message := none }
  { Map := self.Map.set name (constraints ++ [constraint]) }

/-- Rule `NotEmpty`. -/
def NotEmpty : Rule := fun value =>
  if value = "" then some "This value is required" else none

/-- Method `Rules.AddRequired`. -/
def AddRequired (self : Rules) (name : String) (rule : Rule) (message : String) : Rules :=
  Add (Add self name NotEmpty "") name rule message

/-- Rule constructor `EqualsAny`: the loop returns nil at the first equal member. -/
def EqualsAny (any : List String) : Rule := fun value =>
  if any.any (fun x => decide (x = value)) then none
  else some ("Did not match the following: " ++ ", ".intercalate any)

/-! ## Structural validation (lines 83-125) -/

mutual
/-- A Go value as `reflect` sees it. `str defined s` has kind `String`; `defined` says its
type is a defined string type (`type T string`) and not `string` itself. `nilIface` is the nil
interface value, `nilPtr` a nil pointer, `ptr v` a pointer to `v`; `bool`, `int` and `other`
stand for the kinds that are neither `String`, `Struct` nor `Ptr`. -/
inductive Value where
  | str (defined : Bool) (s : String)
  | struct (fields : Fields)
  | ptr (elem : Value)
  | nilPtr
  | nilIface
  | bool (b : Bool)
  | int (n : Int)
  | other (tag : Nat)
/-- The fields of a struct value in declaration order: declared name, whether the field is
exported (`PkgPath` empty), and its value. -/
inductive Fields where
  | nil
  | cons (name : String) (exported : Bool) (v : Value) (rest : Fields)
end

/-- Merge loop `for key, value := range errormap { messages[key] = value }`. -/
def mergeInto (messages errormap : GoMap (List String)) : GoMap (List String) :=
  errormap.foldl (fun m kv => m.set kv.1 kv.2) messages

mutual
/-- Method `Rules.validateStructWithKeyPrefix`; `none` is a panic. A pointer is dereferenced
once; `Type()` panics on the invalid value and `NumField()` on every kind but `Struct`. -/
def validateStructWithKeyPrefix (self : Rules) (pfx : String) :
    Value → Option (Bool × GoMap (List String))
  | .struct fs => validateFields self pfx fs (true, [])
  | .ptr (.struct fs) => validateFields self pfx fs (true, [])
  | _ => none
/-- The field loop of `validateStructWithKeyPrefix` over the state `(valid, messages)`.
`f.Interface()` panics on an unexported field, and the assertion `.(string)` panics when the
dynamic type is a defined string type. -/
def validateFields (self : Rules) (pfx : String) :
    Fields → Bool × GoMap (List String) → Option (Bool × GoMap (List String))
  | .nil, st => some st
  | .cons name exported f rest, st =>
    let key := pfx ++ name
    match f with
    | .str defined s =>
      if exported = true ∧ defined = false then
        let r := ValidateKeyValue self key s
        validateFields self pfx rest (if r.1 = false then (false, st.2.set key r.2) else st)
      else none
    | .struct fs =>
      if exported = true then
        match validateStructWithKeyPrefix self (key ++ ".") (.struct fs) with
        | some r =>
          validateFields self pfx rest
            (if r.1 = false then (false, mergeInto st.2 r.2) else st)
        | none => none
      else none
    | _ => validateFields self pfx rest st
end

/-- Method `Rules.ValidateStruct`. -/
def ValidateStruct (self : Rules) (s : Value) : Option (Bool × GoMap (List String)) :=
  validateStructWithKeyPrefix self "" s

/-! ## Package `regexp`, as far as the patterns of the rules use it -/

/-- Membership of a character in a class given by its ranges `lo-hi` of code points. -/
def inClass (ranges : List (Char × Char)) (c : Char) : Bool :=
  ranges.any (fun r => decide (r.1.toNat ≤ c.toNat ∧ c.toNat ≤ r.2.toNat))

/-- Regular expressions: no match, the empty string, one character of a class, alternation,
concatenation and repetition. -/
inductive Regex where
  | zero
  | eps
  | cls (ranges : List (Char × Char))
  | alt (r s : Regex)
  | cat (r s : Regex)
  | star (r : Regex)

namespace Regex

/-- The group `(r)?`. -/
def opt (r : Regex) : Regex := alt eps r

/-- The repetition `r+`. -/
def plus (r : Regex) : Regex := cat r (star r)

/-- The counted repetition `r{n}`. -/
def rep : Nat → Regex → Regex
  | 0, _ => eps
  | n + 1, r => cat r (rep n r)

/-- A literal character that has no other case. -/
def lit (c : Char) : Regex := cls [(c, c)]

/-- The pattern `.` without the flag `s`: any character but the newline U+000A. -/
def dot : Regex := cls [(Char.ofNat 0, Char.ofNat 9), (Char.ofNat 11, Char.ofNat 0x10FFFF)]

/-- Whether the expression matches the empty string. -/
def nullable : Regex → Bool
  | zero => false
  | eps => true
  | cls _ => false
  | alt r s => nullable r || nullable s
  | cat r s => nullable r && nullable s
  | star _ => true

/-- The derivative: what remains to be matched after reading the character `c`. -/
def deriv : Regex → Char → Regex
  | zero, _ => zero
  | eps, _ => zero
  | cls ranges, c => if inClass ranges c then eps else zero
  | alt r s, c => alt (deriv r c) (deriv s c)
  | cat r s, c =>
    if nullable r then alt (cat (deriv r c) s) (deriv s c) else cat (deriv r c) s
  | star r, c => cat (deriv r c) (star r)

/-- Whether the expression matches the whole text. -/
def rmatch : Regex → List Char → Bool
  | r, [] => nullable r
  | r, c :: cs => rmatch (deriv r c) cs

end Regex

/-- A pattern of the form `^body$`, possibly after the flag group `(?i)`: its source text and
the expression between the anchors. Without the flag `m` the anchors are the start and the end
of the text, so `regexp.MatchString` reports a match iff the whole text matches `body`. -/
structure Pattern where
  text : String
  body : Regex

/-- The class `[0-9]`; under `(?i)` it is the same class, as no digit has another case. -/
def classDigit : List (Char × Char) := [('0', '9')]

/-- The class `[a-f0-9]` (no flag). -/
def classHexLower : List (Char × Char) := [('0', '9'), ('a', 'f')]

/-- The class `[a-f0-9]` under `(?i)`: the parser adds the other case of every letter. -/
def classHexFold : List (Char × Char) := [('0', '9'), ('A', 'F'), ('a', 'f')]

/-- The class `[a-z]` under `(?i)`. The parser (`appendFoldedRange`) adds to a range every
rune of the `unicode.SimpleFold` orbit of its members: the capitals, and U+017F (long s,
which folds to `s`) and U+212A (Kelvin sign, which folds to `k`). -/
def classLetterFold : List (Char × Char) :=
  [('A', 'Z'), ('a', 'z'), ('\u017f', '\u017f'), ('\u212a', '\u212a')]

/-- The class `[a-z0-9]` under `(?i)`. -/
def classAlnumFold : List (Char × Char) := ('0', '9') :: classLetterFold

/-- The class `[a-z0-9\-\.]` under `(?i)`. -/
def classHostFold : List (Char × Char) := ('-', '-') :: ('.', '.') :: classAlnumFold

/-- The class `[a-z0-9\.\-+_]` under `(?i)`. -/
def classLocalFold : List (Char × Char) :=
  ('+', '+') :: ('-', '-') :: ('.', '.') :: ('_', '_') :: classAlnumFold

/-- Pattern of `Url`. -/
def urlPattern : Pattern :=
  { text := "(?i)^([a-z]+:\\/\\/[a-z0-9][a-z0-9\\-\\.]*.+)?$"
    body := .opt (.cat (.plus (.cls classLetterFold)) (.cat (.lit ':') (.cat (.lit '/')
      (.cat (.lit '/') (.cat (.cls classAlnumFold)
        (.cat (.star (.cls classHostFold)) (.plus .dot))))))) }

/-- Pattern of `ObjectId`. -/
def objectIdPattern : Pattern :=
  { text := "^([a-f0-9]\x7b24\x7d)?$"
    body := .opt (.rep 24 (.cls classHexLower)) }

/-- Pattern of `Alpha`. -/
def alphaPattern : Pattern :=
  { text := "(?i)^([a-z0-9]+)?$"
    body := .opt (.plus (.cls classAlnumFold)) }

/-- Pattern of `Email`; the `.` before the last class is the unescaped any-character. -/
def emailPattern : Pattern :=
  { text := "(?i)^([a-z0-9][a-z0-9\\.\\-+_]*@[a-z0-9\\-\\.]+.[a-z]+)?$"
    body := .opt (.cat (.cls classAlnumFold) (.cat (.star (.cls classLocalFold))
      (.cat (.lit '@') (.cat (.plus (.cls classHostFold))
        (.cat .dot (.plus (.cls classLetterFold))))))) }

/-- Pattern of `Numeric`. -/
def numericPattern : Pattern :=
  { text := "(?i)^([0-9]+)?$"
    body := .opt (.plus (.cls classDigit)) }

/-- Pattern of `ZipCode`. -/
def zipCodePattern : Pattern :=
  { text := "(?i)^([0-9]\x7b5\x7d)?$"
    body := .opt (.rep 5 (.cls classDigit)) }

/-- Pattern of `Sha1`: the group is not optional. -/
def sha1Pattern : Pattern :=
  { text := "(?i)^([a-f0-9]\x7b40\x7d)$"
    body := .rep 40 (.cls classHexFold) }

/-! ## Pattern rules (lines 158-210, 235-251) -/

/-- Function `MatchExpr`: nil iff `regexp.MatchString(expr, value)` reports a match. -/
def MatchExpr (value : String) (expr : Pattern) : GoError :=
  if expr.body.rmatch value.data = true then none
  else some ("Value does not match pattern " ++ expr.text ++ ".")

/-- Rule `Url`. -/
def Url : Rule := fun value =>
  match MatchExpr value urlPattern with
  | none => none
  | some _ => some "Value must be an URL."

/-- Rule `ObjectId`. -/
def ObjectId : Rule := fun value =>
  match MatchExpr value objectIdPattern with
  | none => none
  | some _ => some "Expecting an ObjectId."

/-- Rule `Alpha`. -/
def Alpha : Rule := fun value =>
  match MatchExpr value alphaPattern with
  | none => none
  | some _ =>
    some "Value must be a number or a letter from A to Z (case does not matter)."

/-- Rule `Email`. -/
def Email : Rule := fun value =>
  match MatchExpr value emailPattern with
  | none => none
  | some _ => some "Value must be an e-mail address."

/-- Rule `Numeric`. -/
def Numeric : Rule := fun value =>
  match MatchExpr value numericPattern with
  | none => none
  | some _ => some "Value must be a number."

/-- Rule `ZipCode`. -/
def ZipCode : Rule := fun value =>
  match MatchExpr value zipCodePattern with
  | none => none
  | some _ => some "Value must be a zipcode (XXXXX)."

/-- Rule `Sha1`. -/
def Sha1 : Rule := fun value =>
  match MatchExpr value sha1Pattern with
  | none => none
  | some _ => some "Value must be a SHA1 hash."

/-! ## Specification-side definitions -/

/-- The constraint list registered for a field: the empty list if the field is absent. -/
def constraintsOf (self : Rules) (name : String) : List Constraint :=
  (self.Map.get? name).getD []

/-- The message a failing constraint reports: its override if set, else the rule's reason. -/
def failureMessage (c : Constraint) (reason : String) : String :=
  c.Message.getD reason

/-- Specification of the message list: go through the constraints in order and emit one
message for each constraint whose rule fails on `v`. -/
def failureMessages (cs : List Constraint) (v : String) : List String :=
  cs.filterMap (fun c => (c.Rule v).map (failureMessage c))

/-- The override a call of `Add` stores: unset for the empty message. -/
def overrideOf (message : String) : GoError :=
  if message = "" then none else some message

/-- The kinds for which the switch of the field loop has no case: every kind but `String`
and `Struct`. -/
def Value.isSkipped : Value → Bool
  | .str _ _ => false
  | .struct _ => false
  | _ => true

/-- Concatenation of field lists. -/
def Fields.append : Fields → Fields → Fields
  | .nil, gs => gs
  | .cons name exported v rest, gs => .cons name exported v (Fields.append rest gs)

/-- The field list without its fields of a skipped kind, at every nesting depth. -/
def Fields.strip : Fields → Fields
  | .nil => .nil
  | .cons name exported (.str defined s) rest =>
    .cons name exported (.str defined s) (Fields.strip rest)
  | .cons name exported (.struct fs) rest =>
    .cons name exported (.struct (Fields.strip fs)) (Fields.strip rest)
  | .cons _ _ _ rest => Fields.strip rest

/-- The record (or pointer to a record) without its fields of a skipped kind, at every
nesting depth. -/
def Value.strip : Value → Value
  | .struct fs => .struct (Fields.strip fs)
  | .ptr (.struct fs) => .ptr (.struct (Fields.strip fs))
  | v => v

/-- The flat map of a record: every field of kind `String`, at every nesting depth, under its
dotted path (declared names joined by `"."` after `pfx`), with its value. -/
def Fields.leaves (pfx : String) : Fields → GoMap String
  | .nil => []
  | .cons name _ (.str _ s) rest => (pfx ++ name, s) :: Fields.leaves pfx rest
  | .cons name _ (.struct fs) rest =>
    Fields.leaves (pfx ++ name ++ ".") fs ++ Fields.leaves pfx rest
  | .cons _ _ _ rest => Fields.leaves pfx rest

/-- Records on which the field loop calls `Interface()` and `.(string)` safely: every field of
kind `String` is exported and of type `string`, every field of kind `Struct` is exported, at
every nesting depth. -/
def Fields.plain : Fields → Bool
  | .nil => true
  | .cons _ exported (.str defined _) rest => exported && !defined && Fields.plain rest
  | .cons _ exported (.struct fs) rest => exported && Fields.plain fs && Fields.plain rest
  | .cons _ _ _ rest => Fields.plain rest

/-- The failing entries of a flat map, in order: each key whose value fails
`ValidateKeyValue`, with the messages of that call. -/
def failures (self : Rules) (params : GoMap String) : GoMap (List String) :=
  params.filterMap (fun kv =>
    if (ValidateKeyValue self kv.1 kv.2).1 = false
    then some (kv.1, (ValidateKeyValue self kv.1 kv.2).2) else none)

/-- The declared names of the fields of a struct, in declaration order. -/
def Fields.names : Fields → List String
  | .nil => []
  | .cons name _ _ rest => name :: Fields.names rest

/-- Struct types the Go compiler accepts, as far as names go: within each struct the field
names are pairwise distinct, and a name, being an identifier, has no `'.'` in it. -/
def Fields.wellFormed : Fields → Bool
  | .nil => true
  | .cons name _ (.struct fs) rest =>
    decide ('.' ∉ name.data) && decide (name ∉ Fields.names rest) &&
      Fields.wellFormed fs && Fields.wellFormed rest
  | .cons name _ _ rest =>
    decide ('.' ∉ name.data) && decide (name ∉ Fields.names rest) && Fields.wellFormed rest

/-- Hexadecimal digit in lower case: `0-9` or `a-f`. -/
def isLowerHexDigit (c : Char) : Bool :=
  c.isDigit || (decide ('a'.toNat ≤ c.toNat) && decide (c.toNat ≤ 'f'.toNat))

/-- Hexadecimal digit in either case: `0-9`, `a-f` or `A-F`. -/
def isHexDigit (c : Char) : Bool :=
  isLowerHexDigit c || (decide ('A'.toNat ≤ c.toNat) && decide (c.toNat ≤ 'F'.toNat))

/-- The two runes outside ASCII that fold to an ASCII letter: U+017F and U+212A. -/
def isFoldExtra (c : Char) : Bool :=
  decide (c.toNat = 0x17F) || decide (c.toNat = 0x212A)

/-- A verdict and a failure map agree: the verdict is valid iff the map has no entry, and
every stored message list is non-empty. -/
def Agrees (st : Bool × GoMap (List String)) : Prop :=
  (st.1 = true ↔ st.2 = []) ∧ ∀ e ∈ st.2, e.2 ≠ []

/-! ## Lemmas on maps and strings -/

theorem GoMap.get?_set_self {α : Type} (m : GoMap α) (k : String) (v : α) :
    (m.set k v).get? k = some v := by
  induction m with
  | nil => simp [GoMap.set, GoMap.get?]
  | cons e t ih =>
    obtain ⟨k', v'⟩ := e
    by_cases h : k' = k
    · simp [GoMap.set, GoMap.get?, h]
    · simp [GoMap.set, GoMap.get?, h, ih]

theorem GoMap.get?_set_ne {α : Type} (m : GoMap α) (k k' : String) (v : α) (h : k' ≠ k) :
    (m.set k v).get? k' = m.get? k' := by
  induction m with
  | nil => simp [GoMap.set, GoMap.get?, Ne.symm h]
  | cons e t ih =>
    obtain ⟨k₁, v₁⟩ := e
    by_cases h₁ : k₁ = k
    · subst h₁
      simp [GoMap.set, GoMap.get?, Ne.symm h]
    · simp only [GoMap.set, h₁, if_false, GoMap.get?, ih]

theorem GoMap.get?_set {α : Type} (m : GoMap α) (k k' : String) (v : α) :
    (m.set k v).get? k' = if k' = k then some v else m.get? k' := by
  by_cases h : k' = k
  · subst h; simp [GoMap.get?_set_self]
  · simp [h, GoMap.get?_set_ne]

theorem GoMap.mem_keys_iff {α : Type} (m : GoMap α) (k : String) :
    k ∈ m.keys ↔ ∃ v, m.get? k = some v := by
  induction m with
  | nil => simp [GoMap.keys, GoMap.get?]
  | cons e t ih =>
    obtain ⟨k', v'⟩ := e
    by_cases h : k' = k
    · simp [GoMap.keys, GoMap.get?, h]
    · have ih' : k ∈ List.map Prod.fst t ↔ ∃ v, GoMap.get? t k = some v := ih
      simp [GoMap.keys, GoMap.get?, h, Ne.symm h, ih']

theorem GoMap.not_mem_keys_iff {α : Type} (m : GoMap α) (k : String) :
    k ∉ m.keys ↔ m.get? k = none := by
  rw [GoMap.mem_keys_iff]
  cases m.get? k <;> simp

theorem len_pos_iff (s : String) : len s > 0 ↔ s ≠ "" := by
  obtain ⟨cs⟩ := s
  cases cs with
  | nil => simp [len, String.utf8ByteSize, String.utf8ByteSize.go]
  | cons c t =>
    have hc : 0 < c.utf8Size := Char.utf8Size_pos c
    have hne : (String.mk (c :: t)) ≠ "" := by
      intro h
      have := congrArg String.data h
      simp at this
    simp only [len, String.utf8ByteSize, String.utf8ByteSize.go, gt_iff_lt, ne_eq, hne,
      not_false_eq_true, iff_true]
    omega

theorem Add_constraint (rule : Rule) (message : String) :
    (if len message > 0 then ({ Rule := rule, Message := some message } : Constraint)
      else { Rule := rule, Message := none }) = { Rule := rule, Message := overrideOf message } := by
  by_cases h : message = ""
  · subst h; simp [overrideOf, len, String.utf8ByteSize, String.utf8ByteSize.go]
  · have := (len_pos_iff message).2 h
    simp [overrideOf, h, this]

theorem constraintsOf_Add_self (self : Rules) (name : String) (rule : Rule) (message : String) :
    constraintsOf (Add self name rule message) name =
      constraintsOf self name ++ [{ Rule := rule, Message := overrideOf message }] := by
  unfold constraintsOf Add
  simp only [Add_constraint, GoMap.get?_set_self, Option.getD_some]
  cases self.Map.get? name <;> rfl

theorem get?_Add_ne (self : Rules) (name n : String) (rule : Rule) (message : String)
    (h : n ≠ name) : (Add self name rule message).Map.get? n = self.Map.get? n := by
  unfold Add
  simp only [GoMap.get?_set_ne _ _ _ _ h]

/-! ## The loop of `ValidateKeyValue` -/

theorem foldl_checkConstraint (v : String) (cs : List Constraint) (st : Bool × List String) :
    cs.foldl (checkConstraint v) st =
      (st.1 && cs.all (fun c => (c.Rule v).isNone), st.2 ++ failureMessages cs v) := by
  induction cs generalizing st with
  | nil => simp [failureMessages]
  | cons c t ih =>
    rw [List.foldl_cons, ih]
    unfold checkConstraint
    cases hr : c.Rule v with
    | none => simp [failureMessages, hr]
    | some reason =>
      cases hm : c.Message <;>
        simp [failureMessages, hr, hm, failureMessage]

theorem ValidateKeyValue_eq (self : Rules) (key value : String) :
    ValidateKeyValue self key value =
      ((constraintsOf self key).all (fun c => (c.Rule value).isNone),
        failureMessages (constraintsOf self key) value) := by
  unfold ValidateKeyValue constraintsOf
  cases self.Map.get? key with
  | none => simp [failureMessages]
  | some cs => simp [foldl_checkConstraint]

theorem length_failureMessages (cs : List Constraint) (v : String) :
    (failureMessages cs v).length = cs.countP (fun c => (c.Rule v).isSome) := by
  induction cs with
  | nil => simp [failureMessages]
  | cons c t ih =>
    unfold failureMessages at ih ⊢
    cases hr : c.Rule v <;> simp [List.filterMap_cons, List.countP_cons, hr, ih]

/-! ## The loop of `Validate` -/

theorem foldl_validateEntry_fst (self : Rules) (params : GoMap String) (ks : List String)
    (st : Bool × GoMap (List String)) :
    (ks.foldl (validateEntry self params) st).1 =
      (st.1 && ks.all (fun k => (ValidateKeyValue self k ((params.get? k).getD "")).1)) := by
  induction ks generalizing st with
  | nil => simp
  | cons k t ih =>
    rw [List.foldl_cons, ih]
    unfold validateEntry
    cases h : (ValidateKeyValue self k ((params.get? k).getD "")).1 <;> simp [h]

theorem foldl_validateEntry_get? (self : Rules) (params : GoMap String) (ks : List String)
    (st : Bool × GoMap (List String)) (k : String) :
    (ks.foldl (validateEntry self params) st).2.get? k =
      if k ∈ ks ∧ (ValidateKeyValue self k ((params.get? k).getD "")).1 = false
      then some (ValidateKeyValue self k ((params.get? k).getD "")).2 else st.2.get? k := by
  induction ks generalizing st with
  | nil => simp
  | cons k' t ih =>
    rw [List.foldl_cons, ih]
    unfold validateEntry
    by_cases hk : k = k'
    · subst hk
      cases h : (ValidateKeyValue self k ((params.get? k).getD "")).1 <;>
        simp [h, GoMap.get?_set_self]
    · cases h' : (ValidateKeyValue self k' ((params.get? k').getD "")).1 <;>
        simp [h', hk, GoMap.get?_set_ne]

theorem Validate_get? (self : Rules) (params : GoMap String) (k : String) :
    (Validate self params).2.get? k =
      match params.get? k with
      | some v =>
        if (ValidateKeyValue self k v).1 = false then some (ValidateKeyValue self k v).2 else none
      | none => none := by
  unfold Validate
  rw [foldl_validateEntry_get?]
  cases h : params.get? k with
  | none =>
    have : k ∉ params.keys := (GoMap.not_mem_keys_iff params k).2 h
    simp [this, GoMap.get?]
  | some v =>
    have : k ∈ params.keys := (GoMap.mem_keys_iff params k).2 ⟨v, h⟩
    simp [this, GoMap.get?]

/-! ## Claims C1 - C3: key/value validation -/

/-- C1: `ValidateKeyValue(f, v)` returns as messages exactly the list obtained by going through
the constraints of `f` in registration order and emitting, for each constraint whose rule fails
on `v`, the override message if set and else the rule's own reason (no short-circuit); `valid`
is true iff no constraint fails; the list has as many messages as there are failing
constraints. -/
theorem ValidateKeyValue_spec (self : Rules) (f v : String) :
    (ValidateKeyValue self f v).2 = failureMessages (constraintsOf self f) v ∧
    ((ValidateKeyValue self f v).1 = true ↔ ∀ c ∈ constraintsOf self f, c.Rule v = none) ∧
    (ValidateKeyValue self f v).2.length =
      (constraintsOf self f).countP (fun c => (c.Rule v).isSome) := by
  rw [ValidateKeyValue_eq]
  refine ⟨rfl, ?_, length_failureMessages _ _⟩
  simp [List.all_eq_true]

/-- C2: for a field name without registered constraints `ValidateKeyValue` returns valid and an
empty message list for every value, the empty string included. -/
theorem ValidateKeyValue_unregistered (self : Rules) (name v : String)
    (h : constraintsOf self name = []) :
    ValidateKeyValue self name v = (true, []) := by
  rw [ValidateKeyValue_eq, h]
  simp [failureMessages]

theorem ValidateKeyValue_unregistered_witness :
    constraintsOf (Add New "a" NotEmpty "") "b" = [] ∧
      ValidateKeyValue (Add New "a" NotEmpty "") "b" "" = (true, []) :=
  ⟨rfl, ValidateKeyValue_unregistered (Add New "a" NotEmpty "") "b" "" rfl⟩

/-- C3: the failure map of `Validate(input)` has as keys exactly the keys `k` of the input for
which `ValidateKeyValue(k, input[k])` is invalid, each mapped to the messages of that call;
`valid` is the AND of the per-key verdicts; a key absent from the input never appears in the
failures, and `Validate` of the empty map is valid with no failures for every registry. -/
theorem Validate_spec (self : Rules) (params : GoMap String) :
    (∀ k, (Validate self params).2.get? k =
      match params.get? k with
      | some v =>
        if (ValidateKeyValue self k v).1 = false then some (ValidateKeyValue self k v).2 else none
      | none => none) ∧
    (∀ k, k ∈ (Validate self params).2.keys ↔
      ∃ v, params.get? k = some v ∧ (ValidateKeyValue self k v).1 = false) ∧
    (Validate self params).1 =
      params.keys.all (fun k => (ValidateKeyValue self k ((params.get? k).getD "")).1) ∧
    (∀ k, params.get? k = none → k ∉ (Validate self params).2.keys) ∧
    Validate self [] = (true, []) := by
  refine ⟨Validate_get? self params, ?_, ?_, ?_, rfl⟩
  · intro k
    rw [GoMap.mem_keys_iff, Validate_get?]
    cases h : params.get? k with
    | none => simp
    | some v => cases h' : (ValidateKeyValue self k v).1 <;> simp [h']
  · unfold Validate
    rw [foldl_validateEntry_fst]
    simp
  · intro k hk
    rw [GoMap.not_mem_keys_iff, Validate_get?, hk]

theorem Validate_spec_witness :
    "c" ∉ (Validate (Add (Add New "b" (EqualsAny ["1"]) "") "c" NotEmpty "")
      [("a", "1"), ("b", "x")]).2.keys ∧
    Validate (Add (Add New "b" (EqualsAny ["1"]) "") "c" NotEmpty "")
      [("a", "1"), ("b", "x")] = (false, [("b", ["Did not match the following: 1"])]) :=
  ⟨(Validate_spec (Add (Add New "b" (EqualsAny ["1"]) "") "c" NotEmpty "")
      [("a", "1"), ("b", "x")]).2.2.2.1 "c" rfl, by decide⟩

/-! ## Claims C6 - C9: registration -/

theorem constraintsOf_New (name : String) : constraintsOf New name = [] := rfl

theorem get?_eq_some_constraintsOf_Add (self : Rules) (name : String) (rule : Rule)
    (message : String) :
    (Add self name rule message).Map.get? name =
      some (constraintsOf self name ++ [{ Rule := rule, Message := overrideOf message }]) := by
  have h := constraintsOf_Add_self self name rule message
  have hs : (Add self name rule message).Map.get? name =
      some (constraintsOf (Add self name rule message) name) := by
    unfold constraintsOf Add
    simp only [GoMap.get?_set_self, Option.getD_some]
  rw [hs, h]

/-- C6: `Add(name, rule, message)` changes the registry only at `name`: the list of `name`
becomes the old list (empty if absent) followed by one constraint holding `rule`, whose override
is `message` when that is non-empty and unset when it is `""`; every other field keeps its
entry. After `New()` and one `Add` there is exactly one constraint under `name` and no entry
under any other name. -/
theorem Add_spec (self : Rules) (name : String) (rule : Rule) (message : String) :
    (Add self name rule message).Map.get? name =
      some (constraintsOf self name ++
        [{ Rule := rule, Message := if message = "" then none else some message }]) ∧
    (∀ n, n ≠ name → (Add self name rule message).Map.get? n = self.Map.get? n) ∧
    (Add New name rule message).Map.get? name =
      some [{ Rule := rule, Message := if message = "" then none else some message }] ∧
    (∀ n, n ≠ name → (Add New name rule message).Map.get? n = none) := by
  refine ⟨get?_eq_some_constraintsOf_Add self name rule message,
    fun n hn => get?_Add_ne self name n rule message hn, ?_, ?_⟩
  · rw [get?_eq_some_constraintsOf_Add, constraintsOf_New]
    rfl
  · intro n hn
    rw [get?_Add_ne New name n rule message hn]
    rfl

theorem Add_spec_witness :
    (Add (Add New "a" NotEmpty "") "b" (EqualsAny ["x"]) "m").Map.get? "a" =
      (Add New "a" NotEmpty "").Map.get? "a" :=
  (Add_spec (Add New "a" NotEmpty "") "b" (EqualsAny ["x"]) "m").2.1 "a" (by decide)

theorem constraintsOf_AddRequired (self : Rules) (f : String) (R : Rule) (m : String) :
    constraintsOf (AddRequired self f R m) f =
      constraintsOf self f ++
        [{ Rule := NotEmpty, Message := none }, { Rule := R, Message := overrideOf m }] := by
  unfold AddRequired
  rw [constraintsOf_Add_self, constraintsOf_Add_self]
  simp [overrideOf]

/-- C7: after `AddRequired(f, R, m)` the list of `f` is the old list followed by a `NotEmpty`
constraint without override and then the constraint `(R, m)`. When `f` had no earlier
constraints, `ValidateKeyValue(f, "")` is invalid, its first message is
`"This value is required"`, and when `R` also fails on `""` the message of `R` (the override
`m`, or the reason of `R` when `m` is empty) comes right after it. -/
theorem AddRequired_spec (self : Rules) (f : String) (R : Rule) (m : String) :
    constraintsOf (AddRequired self f R m) f =
      constraintsOf self f ++
        [{ Rule := NotEmpty, Message := none },
         { Rule := R, Message := if m = "" then none else some m }] ∧
    (constraintsOf self f = [] →
      (ValidateKeyValue (AddRequired self f R m) f "").1 = false ∧
      (ValidateKeyValue (AddRequired self f R m) f "").2.head? =
        some "This value is required" ∧
      ∀ reason, R "" = some reason →
        (ValidateKeyValue (AddRequired self f R m) f "").2 =
          ["This value is required", if m = "" then reason else m]) := by
  refine ⟨constraintsOf_AddRequired self f R m, ?_⟩
  intro h
  rw [ValidateKeyValue_eq, constraintsOf_AddRequired, h]
  refine ⟨?_, ?_, ?_⟩
  · simp [NotEmpty]
  · simp [failureMessages, NotEmpty, failureMessage]
  · intro reason hr
    by_cases hm : m = "" <;>
      simp [failureMessages, NotEmpty, failureMessage, hr, overrideOf, hm]

theorem AddRequired_spec_witness :
    (ValidateKeyValue (AddRequired New "f" NotEmpty "msg") "f" "").2 =
      ["This value is required", "msg"] :=
  (AddRequired_spec New "f" NotEmpty "msg").2 rfl |>.2.2 "This value is required" rfl

/-- C8, as stated, fails: with the rule `EqualsAny([""])`, which accepts the empty string,
`AddRequired(f, R, "msg")` on a fresh registry followed by `ValidateKeyValue(f, "")` yields
one message, not two. -/
theorem AddRequired_accepting_rule_one_message :
    EqualsAny [""] "" = none ∧
    ValidateKeyValue (AddRequired New "f" (EqualsAny [""]) "msg") "f" "" =
      (false, ["This value is required"]) ∧
    (ValidateKeyValue (AddRequired New "f" (EqualsAny [""]) "msg") "f" "").2.length ≠ 2 := by
  decide

/-- C8, amended: on a fresh registry after `AddRequired(f, R, "msg")`, `ValidateKeyValue(f, "")`
is invalid and yields the default not-empty message first, followed by the override message
`"msg"` exactly when `R` fails on `""` and by nothing when `R` accepts `""`. -/
theorem AddRequired_fresh_empty_value (R : Rule) (f : String) :
    ValidateKeyValue (AddRequired New f R "msg") f "" =
      (false, "This value is required" :: (if (R "").isSome then ["msg"] else [])) := by
  rw [ValidateKeyValue_eq, constraintsOf_AddRequired, constraintsOf_New]
  cases hr : R "" <;>
    simp [failureMessages, NotEmpty, failureMessage, hr, overrideOf]

/-- C9: no deduplication. After `Add(f, R, m)` is called twice on a fresh registry the list of
`f` has two constraints, and for a value `v` on which `R` fails `ValidateKeyValue(f, v)` is
invalid with exactly two messages, the same message twice. -/
theorem Add_twice_no_dedup (f : String) (R : Rule) (m v reason : String)
    (h : R v = some reason) :
    (constraintsOf (Add (Add New f R m) f R m) f).length = 2 ∧
    ValidateKeyValue (Add (Add New f R m) f R m) f v =
      (false, [if m = "" then reason else m, if m = "" then reason else m]) := by
  have hc : constraintsOf (Add (Add New f R m) f R m) f =
      [{ Rule := R, Message := overrideOf m }, { Rule := R, Message := overrideOf m }] := by
    rw [constraintsOf_Add_self, constraintsOf_Add_self, constraintsOf_New]
    rfl
  rw [ValidateKeyValue_eq, hc]
  refine ⟨rfl, ?_⟩
  by_cases hm : m = "" <;>
    simp [failureMessages, failureMessage, h, overrideOf, hm]

theorem Add_twice_no_dedup_witness :
    NotEmpty "" = some "This value is required" ∧
    ValidateKeyValue (Add (Add New "test" NotEmpty "message") "test" NotEmpty "message")
      "test" "" = (false, ["message", "message"]) :=
  ⟨rfl, (Add_twice_no_dedup "test" NotEmpty "message" "" "This value is required" rfl).2⟩

/-! ## Structural validation: skipped kinds -/

theorem validateFields_skip (self : Rules) (pfx name : String) (exported : Bool) (v : Value)
    (rest : Fields) (st : Bool × GoMap (List String)) (hv : v.isSkipped = true) :
    validateFields self pfx (.cons name exported v rest) st =
      validateFields self pfx rest st := by
  cases v <;> first
    | (simp [Value.isSkipped] at hv; done)
    | simp only [validateFields]

theorem validateFields_append (self : Rules) :
    ∀ (fs gs : Fields) (pfx : String) (st : Bool × GoMap (List String)),
      validateFields self pfx (Fields.append fs gs) st =
        (validateFields self pfx fs st).bind (validateFields self pfx gs)
  | .nil, _, _, _ => rfl
  | .cons name exported v rest, gs, pfx, st => by
    cases v with
    | str defined s =>
      simp only [validateFields, Fields.append]
      split
      · exact validateFields_append self rest gs pfx _
      · rfl
    | struct fs =>
      simp only [validateFields, Fields.append]
      split
      · split
        · exact validateFields_append self rest gs pfx _
        · rfl
      · rfl
    | ptr e =>
      simp only [validateFields, Fields.append]
      exact validateFields_append self rest gs pfx _
    | nilPtr =>
      simp only [validateFields, Fields.append]
      exact validateFields_append self rest gs pfx _
    | nilIface =>
      simp only [validateFields, Fields.append]
      exact validateFields_append self rest gs pfx _
    | bool b =>
      simp only [validateFields, Fields.append]
      exact validateFields_append self rest gs pfx _
    | int n =>
      simp only [validateFields, Fields.append]
      exact validateFields_append self rest gs pfx _
    | other tag =>
      simp only [validateFields, Fields.append]
      exact validateFields_append self rest gs pfx _

theorem validateFields_strip (self : Rules) :
    ∀ (fs : Fields) (pfx : String) (st : Bool × GoMap (List String)),
      validateFields self pfx fs st = validateFields self pfx (Fields.strip fs) st
  | .nil, _, _ => rfl
  | .cons name exported v rest, pfx, st => by
    cases v with
    | str defined s =>
      simp only [validateFields, Fields.strip]
      split
      · exact validateFields_strip self rest pfx _
      · rfl
    | struct fs =>
      simp only [validateFields, Fields.strip, validateStructWithKeyPrefix]
      rw [validateFields_strip self fs]
      split
      · split
        · exact validateFields_strip self rest pfx _
        · rfl
      · rfl
    | ptr e =>
      simp only [validateFields, Fields.strip]
      exact validateFields_strip self rest pfx _
    | nilPtr =>
      simp only [validateFields, Fields.strip]
      exact validateFields_strip self rest pfx _
    | nilIface =>
      simp only [validateFields, Fields.strip]
      exact validateFields_strip self rest pfx _
    | bool b =>
      simp only [validateFields, Fields.strip]
      exact validateFields_strip self rest pfx _
    | int n =>
      simp only [validateFields, Fields.strip]
      exact validateFields_strip self rest pfx _
    | other tag =>
      simp only [validateFields, Fields.strip]
      exact validateFields_strip self rest pfx _

theorem validateStructWithKeyPrefix_strip (self : Rules) (pfx : String) (s : Value) :
    validateStructWithKeyPrefix self pfx s = validateStructWithKeyPrefix self pfx s.strip := by
  cases s with
  | struct fs =>
    simp only [validateStructWithKeyPrefix, Value.strip]
    exact validateFields_strip self fs pfx _
  | ptr e =>
    cases e with
    | struct fs =>
      simp only [validateStructWithKeyPrefix, Value.strip]
      exact validateFields_strip self fs pfx _
    | _ => rfl
  | _ => rfl

theorem validateStruct_remove_skipped (self : Rules) (pfx : String) (fs₁ fs₂ : Fields)
    (name : String) (exported : Bool) (v : Value) (hv : v.isSkipped = true) :
    validateStructWithKeyPrefix self pfx
        (.struct (Fields.append fs₁ (.cons name exported v fs₂))) =
      validateStructWithKeyPrefix self pfx (.struct (Fields.append fs₁ fs₂)) := by
  simp only [validateStructWithKeyPrefix, validateFields_append]
  congr 1
  funext st
  exact validateFields_skip self pfx name exported v fs₂ st hv

/-! ## Claims C4, C5, C10: structural validation -/

/-- C4 fails at a string leaf that is of a defined string type or unexported. With `NotEmpty`
registered under `"Title"`, the record `struct { Title Label }` (`type Label string`) holding
`""` makes `ValidateStruct` panic, while the claim gives the failure map with the single key
`"Title"`: that of `Validate` on the flat map, and what the code returns when the field has
type `string`. The record `struct { title string }` with `NotEmpty` under `"title"` panics
as well. -/
theorem ValidateStruct_string_leaf_panics :
    ValidateStruct (Add New "Title" NotEmpty "")
        (.struct (.cons "Title" true (.str true "") .nil)) = none ∧
    Validate (Add New "Title" NotEmpty "")
        (Fields.leaves "" (.cons "Title" true (.str true "") .nil)) =
      (false, [("Title", ["This value is required"])]) ∧
    ValidateStruct (Add New "Title" NotEmpty "")
        (.struct (.cons "Title" true (.str false "") .nil)) =
      some (false, [("Title", ["This value is required"])]) ∧
    ValidateStruct (Add New "title" NotEmpty "")
        (.struct (.cons "title" false (.str false "") .nil)) = none := by
  decide

/-- C5: a field whose kind is neither `String` nor `Struct` is skipped by the structural
validator. At every key prefix and position in a record, the result with such a field equals
the result of the record without the field (so it adds no key and no invalid verdict, whatever
the registry holds under its path), changing its value changes nothing, and `ValidateStruct`
of a record equals `ValidateStruct` of the record stripped of all such fields at every depth. -/
theorem ValidateStruct_skips_other_kinds (self : Rules) (pfx : String) (fs₁ fs₂ : Fields)
    (name : String) (exported : Bool) (v v' : Value)
    (hv : v.isSkipped = true) (hv' : v'.isSkipped = true) :
    validateStructWithKeyPrefix self pfx
        (.struct (Fields.append fs₁ (.cons name exported v fs₂))) =
      validateStructWithKeyPrefix self pfx (.struct (Fields.append fs₁ fs₂)) ∧
    validateStructWithKeyPrefix self pfx
        (.struct (Fields.append fs₁ (.cons name exported v fs₂))) =
      validateStructWithKeyPrefix self pfx
        (.struct (Fields.append fs₁ (.cons name exported v' fs₂))) ∧
    (∀ s : Value, ValidateStruct self s = ValidateStruct self s.strip) := by
  refine ⟨validateStruct_remove_skipped self pfx fs₁ fs₂ name exported v hv, ?_, ?_⟩
  · rw [validateStruct_remove_skipped self pfx fs₁ fs₂ name exported v hv,
      validateStruct_remove_skipped self pfx fs₁ fs₂ name exported v' hv']
  · intro s
    exact validateStructWithKeyPrefix_strip self "" s

theorem ValidateStruct_skips_other_kinds_witness :
    ValidateStruct (Add (Add New "Age" (EqualsAny []) "") "Name" NotEmpty "")
        (.struct (.cons "Name" true (.str false "x") (.cons "Age" true (.int 3) .nil))) =
      some (true, []) ∧
    ValidateStruct (Add (Add New "Age" (EqualsAny []) "") "Name" NotEmpty "")
        (.struct (.cons "Name" true (.str false "x") (.cons "Age" true (.int 3) .nil))) =
      ValidateStruct (Add (Add New "Age" (EqualsAny []) "") "Name" NotEmpty "")
        (.struct (.cons "Name" true (.str false "x") (.cons "Age" true (.ptr (.int 4)) .nil))) :=
  ⟨by decide,
    (ValidateStruct_skips_other_kinds
      (Add (Add New "Age" (EqualsAny []) "") "Name" NotEmpty "") ""
      (.cons "Name" true (.str false "x") .nil) .nil "Age" true (.int 3) (.ptr (.int 4))
      rfl rfl).2.1⟩

/-- C10 fails: `ValidateStruct` panics, for every registry, on a record with an unexported
string field (`struct { name string }`), on a record whose nested record is an unexported
field (`struct { inner struct { City string } }`), and on a record with a field of a defined
string type below a nested record (`struct { Inner struct { City Label } }`). -/
theorem ValidateStruct_panics (self : Rules) :
    ValidateStruct self (.struct (.cons "name" false (.str false "x") .nil)) = none ∧
    ValidateStruct self
      (.struct (.cons "inner" false (.struct (.cons "City" true (.str false "x") .nil)) .nil)) =
        none ∧
    ValidateStruct self
      (.struct (.cons "Inner" true (.struct (.cons "City" true (.str true "x") .nil)) .nil)) =
        none := by
  refine ⟨?_, ?_, ?_⟩ <;>
    simp [ValidateStruct, validateStructWithKeyPrefix, validateFields]

/-! ## Structural validation on records without panicking fields -/

theorem GoMap.get?_append {α : Type} (a b : GoMap α) (k : String) :
    GoMap.get? (a ++ b) k = (GoMap.get? a k).or (GoMap.get? b k) := by
  induction a with
  | nil => simp [GoMap.get?]
  | cons e t ih =>
    obtain ⟨k', v'⟩ := e
    by_cases h : k' = k
    · simp [GoMap.get?, h]
    · simp only [List.cons_append, GoMap.get?, h, if_false]
      exact ih

theorem GoMap.keys_set {α : Type} (m : GoMap α) (k : String) (v : α) :
    (m.set k v).keys = if k ∈ m.keys then m.keys else m.keys ++ [k] := by
  induction m with
  | nil => simp [GoMap.set, GoMap.keys]
  | cons e t ih =>
    obtain ⟨k', v'⟩ := e
    have ih' : List.map Prod.fst (GoMap.set t k v) =
        if k ∈ List.map Prod.fst t then List.map Prod.fst t else List.map Prod.fst t ++ [k] := ih
    by_cases h : k' = k
    · subst h
      simp [GoMap.set, GoMap.keys]
    · have h' : k ≠ k' := Ne.symm h
      by_cases hm : k ∈ List.map Prod.fst t
      · simp [GoMap.set, GoMap.keys, h, h', ih', hm]
      · simp [GoMap.set, GoMap.keys, h, h', ih', hm]

theorem GoMap.nodup_keys_set {α : Type} (m : GoMap α) (k : String) (v : α)
    (h : m.keys.Nodup) : (m.set k v).keys.Nodup := by
  rw [GoMap.keys_set]
  by_cases hm : k ∈ m.keys
  · simpa [hm] using h
  · simp only [hm, if_false]
    exact List.Nodup.append h (List.nodup_singleton k) (by simpa using hm)

theorem nodup_keys_mergeInto (e m : GoMap (List String)) (h : m.keys.Nodup) :
    (mergeInto m e).keys.Nodup := by
  induction e generalizing m with
  | nil => exact h
  | cons kv t ih => exact ih _ (GoMap.nodup_keys_set m kv.1 kv.2 h)

theorem mergeInto_get? (e m : GoMap (List String)) (k : String) :
    (mergeInto m e).get? k = (GoMap.get? e.reverse k).or (m.get? k) := by
  induction e generalizing m with
  | nil => simp [mergeInto, GoMap.get?]
  | cons kv t ih =>
    obtain ⟨k', v'⟩ := kv
    have h1 : mergeInto m ((k', v') :: t) = mergeInto (m.set k' v') t := rfl
    rw [h1, ih, List.reverse_cons, GoMap.get?_append, Option.or_assoc, GoMap.get?_set]
    by_cases h : k = k'
    · subst h; simp [GoMap.get?]
    · simp [GoMap.get?, h, Ne.symm h]

theorem GoMap.get?_reverse {α : Type} (m : GoMap α) (k : String) (h : m.keys.Nodup) :
    GoMap.get? m.reverse k = m.get? k := by
  induction m with
  | nil => rfl
  | cons e t ih =>
    obtain ⟨k', v'⟩ := e
    have hn : k' ∉ GoMap.keys t ∧ (GoMap.keys t).Nodup := by
      simpa [GoMap.keys] using h
    rw [List.reverse_cons, GoMap.get?_append, ih hn.2]
    by_cases hk : k' = k
    · subst hk
      have : GoMap.get? t k' = none := (GoMap.not_mem_keys_iff t k').1 hn.1
      simp [GoMap.get?, this]
    · cases ht : GoMap.get? t k <;> simp [GoMap.get?, hk, ht]

theorem isEmpty_append_eq {α : Type} (a b : List α) :
    (a ++ b).isEmpty = (a.isEmpty && b.isEmpty) := by
  cases a <;> simp

theorem failures_append (self : Rules) (a b : GoMap String) :
    failures self (a ++ b) = failures self a ++ failures self b := by
  simp [failures, List.filterMap_append]

theorem failures_cons (self : Rules) (k v : String) (t : GoMap String) :
    failures self ((k, v) :: t) =
      (if (ValidateKeyValue self k v).1 = false then [(k, (ValidateKeyValue self k v).2)]
        else []) ++ failures self t := by
  unfold failures
  cases h : (ValidateKeyValue self k v).1 <;> simp [List.filterMap_cons, h]

theorem validateFields_plain (self : Rules) :
    ∀ (fs : Fields) (pfx : String) (st : Bool × GoMap (List String)),
      fs.plain = true →
      ∃ M, validateFields self pfx fs st =
          some (st.1 && (failures self (fs.leaves pfx)).isEmpty, M) ∧
        (∀ k, M.get? k =
          (GoMap.get? (failures self (fs.leaves pfx)).reverse k).or (st.2.get? k)) ∧
        (st.2.keys.Nodup → M.keys.Nodup)
  | .nil, pfx, st, _ => ⟨st.2, by simp [validateFields, Fields.leaves, failures, GoMap.get?]⟩
  | .cons name exported v rest, pfx, st, hp => by
    cases v with
    | str defined s =>
      simp only [Fields.plain, Bool.and_eq_true, Bool.not_eq_true'] at hp
      obtain ⟨⟨he, hd⟩, hr⟩ := hp
      subst he hd
      simp only [validateFields, Fields.leaves, failures_cons, and_self, if_true]
      cases hv : (ValidateKeyValue self (pfx ++ name) s).1
      · obtain ⟨M, h1, h2, h3⟩ := validateFields_plain self rest pfx
          (false, st.2.set (pfx ++ name) (ValidateKeyValue self (pfx ++ name) s).2) hr
        refine ⟨M, ?_, ?_, ?_⟩
        · simp [h1]
        · intro k
          rw [h2 k]
          simp only [if_true, List.singleton_append, List.reverse_cons, GoMap.get?_append,
            Option.or_assoc, GoMap.get?_set]
          by_cases hk : k = pfx ++ name
          · subst hk; simp [GoMap.get?]
          · simp [GoMap.get?, hk, Ne.symm hk]
        · intro hn
          exact h3 (GoMap.nodup_keys_set _ _ _ hn)
      · obtain ⟨M, h1, h2, h3⟩ := validateFields_plain self rest pfx st hr
        exact ⟨M, by simpa using h1, by simpa using h2, h3⟩
    | struct fs =>
      simp only [Fields.plain, Bool.and_eq_true] at hp
      obtain ⟨⟨he, hf⟩, hr⟩ := hp
      subst he
      obtain ⟨M', g1, g2, g3⟩ := validateFields_plain self fs (pfx ++ name ++ ".") (true, []) hf
      have g3' : M'.keys.Nodup := g3 (by simp [GoMap.keys])
      simp only [validateFields, validateStructWithKeyPrefix, g1, Fields.leaves,
        failures_append, if_true]
      have key : ∀ k, (if (true && (failures self (fs.leaves (pfx ++ name ++ "."))).isEmpty) = false
            then ((false, mergeInto st.2 M') : Bool × GoMap (List String)) else st).2.get? k =
          (GoMap.get? (failures self (fs.leaves (pfx ++ name ++ "."))).reverse k).or
            (st.2.get? k) := by
        intro k
        cases hE : (failures self (fs.leaves (pfx ++ name ++ "."))).isEmpty
        · simp only [Bool.and_false, if_true, mergeInto_get?, GoMap.get?_reverse _ _ g3', g2 k]
          simp [GoMap.get?, Option.or_none]
        · have : failures self (fs.leaves (pfx ++ name ++ ".")) = [] :=
            List.isEmpty_iff.1 hE
          simp [this, GoMap.get?]
      obtain ⟨M, h1, h2, h3⟩ := validateFields_plain self rest pfx
        (if (true && (failures self (fs.leaves (pfx ++ name ++ "."))).isEmpty) = false
          then ((false, mergeInto st.2 M') : Bool × GoMap (List String)) else st) hr
      refine ⟨M, ?_, ?_, ?_⟩
      · rw [h1, isEmpty_append_eq]
        cases hE : (failures self (fs.leaves (pfx ++ name ++ "."))).isEmpty <;> simp
      · intro k
        rw [h2 k, key k, List.reverse_append, GoMap.get?_append, Option.or_assoc]
      · intro hn
        apply h3
        cases hE : (failures self (fs.leaves (pfx ++ name ++ "."))).isEmpty
        · simpa using nodup_keys_mergeInto M' st.2 hn
        · simpa using hn
    | ptr e => simpa only [validateFields, Fields.leaves] using
        validateFields_plain self rest pfx st hp
    | nilPtr => simpa only [validateFields, Fields.leaves] using
        validateFields_plain self rest pfx st hp
    | nilIface => simpa only [validateFields, Fields.leaves] using
        validateFields_plain self rest pfx st hp
    | bool b => simpa only [validateFields, Fields.leaves] using
        validateFields_plain self rest pfx st hp
    | int n => simpa only [validateFields, Fields.leaves] using
        validateFields_plain self rest pfx st hp
    | other tag => simpa only [validateFields, Fields.leaves] using
        validateFields_plain self rest pfx st hp

/-! ## Dotted paths of a well-formed record are pairwise distinct -/

theorem wellFormed_cons (name : String) (exported : Bool) (v : Value) (rest : Fields)
    (h : Fields.wellFormed (.cons name exported v rest) = true) :
    '.' ∉ name.data ∧ name ∉ Fields.names rest ∧ Fields.wellFormed rest = true := by
  cases v <;> simp [Fields.wellFormed] at h <;> simp [h]

theorem wellFormed_names (fs : Fields) (h : fs.wellFormed = true) :
    ∀ n ∈ fs.names, '.' ∉ n.data := by
  induction fs using Fields.rec (motive_1 := fun _ => True) with
  | nil => simp [Fields.names]
  | cons name exported v rest _ ih =>
    obtain ⟨h1, _, h3⟩ := wellFormed_cons name exported v rest h
    intro n hn
    simp only [Fields.names, List.mem_cons] at hn
    rcases hn with rfl | hn
    · exact h1
    · exact ih h3 n hn
  | _ => trivial

/-- A path segment boundary: the rest of a key after a field name is empty or starts with
the separator. -/
theorem name_eq_of_append_eq :
    ∀ (n₁ n₂ s₁ s₂ : List Char), '.' ∉ n₁ → '.' ∉ n₂ →
      (s₁ = [] ∨ ∃ t, s₁ = '.' :: t) → (s₂ = [] ∨ ∃ t, s₂ = '.' :: t) →
      n₁ ++ s₁ = n₂ ++ s₂ → n₁ = n₂
  | [], [], _, _, _, _, _, _, _ => rfl
  | [], c :: n₂, s₁, s₂, _, h₂, hs₁, _, h => by
    rcases hs₁ with rfl | ⟨t, rfl⟩
    · simp at h
    · simp only [List.nil_append, List.cons_append, List.cons.injEq] at h
      exact absurd (h.1 ▸ List.mem_cons_self _ _) h₂
  | c :: n₁, [], s₁, s₂, h₁, _, _, hs₂, h => by
    rcases hs₂ with rfl | ⟨t, rfl⟩
    · simp at h
    · simp only [List.nil_append, List.cons_append, List.cons.injEq] at h
      exact absurd (h.1 ▸ List.mem_cons_self _ _) h₁
  | c :: n₁, d :: n₂, s₁, s₂, h₁, h₂, hs₁, hs₂, h => by
    simp only [List.cons_append, List.cons.injEq] at h
    have := name_eq_of_append_eq n₁ n₂ s₁ s₂
      (fun hm => h₁ (List.mem_cons_of_mem _ hm)) (fun hm => h₂ (List.mem_cons_of_mem _ hm))
      hs₁ hs₂ h.2
    rw [h.1, this]

theorem leaves_key_shape :
    ∀ (fs : Fields) (pfx k : String), k ∈ (fs.leaves pfx).keys →
      ∃ n ∈ fs.names, ∃ s : List Char,
        k.data = pfx.data ++ n.data ++ s ∧ (s = [] ∨ ∃ t, s = '.' :: t)
  | .nil, _, _, h => by simp [Fields.leaves, GoMap.keys] at h
  | .cons name exported v rest, pfx, k, h => by
    have hrest : k ∈ (rest.leaves pfx).keys →
        ∃ n ∈ Fields.names (.cons name exported v rest), ∃ s : List Char,
          k.data = pfx.data ++ n.data ++ s ∧ (s = [] ∨ ∃ t, s = '.' :: t) := by
      intro hk
      obtain ⟨n, hn, s, hs⟩ := leaves_key_shape rest pfx k hk
      exact ⟨n, by simp [Fields.names, hn], s, hs⟩
    cases v with
    | str defined s =>
      simp only [Fields.leaves, GoMap.keys, List.map_cons, List.mem_cons] at h
      rcases h with rfl | h
      · exact ⟨name, by simp [Fields.names], [], by simp, Or.inl rfl⟩
      · exact hrest h
    | struct fs =>
      simp only [Fields.leaves, GoMap.keys, List.map_append, List.mem_append] at h
      rcases h with h | h
      · obtain ⟨n, _, s, hs, _⟩ := leaves_key_shape fs (pfx ++ name ++ ".") k h
        refine ⟨name, by simp [Fields.names], '.' :: (n.data ++ s), ?_, Or.inr ⟨_, rfl⟩⟩
        rw [hs]
        simp [String.data_append]
      · exact hrest h
    | ptr e => exact hrest (by simpa only [Fields.leaves] using h)
    | nilPtr => exact hrest (by simpa only [Fields.leaves] using h)
    | nilIface => exact hrest (by simpa only [Fields.leaves] using h)
    | bool b => exact hrest (by simpa only [Fields.leaves] using h)
    | int n => exact hrest (by simpa only [Fields.leaves] using h)
    | other tag => exact hrest (by simpa only [Fields.leaves] using h)

theorem leaves_key_name (name : String) (rest : Fields) (pfx k : String) (s : List Char)
    (hname : '.' ∉ name.data) (hnot : name ∉ rest.names) (hw : rest.wellFormed = true)
    (hs : s = [] ∨ ∃ t, s = '.' :: t) (hk : k.data = pfx.data ++ name.data ++ s) :
    k ∉ (rest.leaves pfx).keys := by
  intro hmem
  obtain ⟨n, hn, s', hs', hshape⟩ := leaves_key_shape rest pfx k hmem
  rw [hk, List.append_assoc, List.append_assoc] at hs'
  have h := name_eq_of_append_eq name.data n.data s s' hname
    (wellFormed_names rest hw n hn) hs hshape (List.append_cancel_left hs')
  have : name = n := String.ext h
  exact hnot (this ▸ hn)

theorem nodup_keys_leaves :
    ∀ (fs : Fields) (pfx : String), fs.wellFormed = true → (fs.leaves pfx).keys.Nodup
  | .nil, _, _ => by simp [Fields.leaves, GoMap.keys]
  | .cons name exported v rest, pfx, hw => by
    obtain ⟨h1, h2, h3⟩ := wellFormed_cons name exported v rest hw
    have ih := nodup_keys_leaves rest pfx h3
    cases v with
    | str defined s =>
      simp only [Fields.leaves, GoMap.keys, List.map_cons, List.nodup_cons]
      exact ⟨leaves_key_name name rest pfx (pfx ++ name) [] h1 h2 h3 (Or.inl rfl)
        (by simp [String.data_append]), ih⟩
    | struct fs =>
      have hf : fs.wellFormed = true := by
        simp only [Fields.wellFormed, Bool.and_eq_true] at hw
        exact hw.1.2
      have ihf := nodup_keys_leaves fs (pfx ++ name ++ ".") hf
      simp only [Fields.leaves, GoMap.keys, List.map_append]
      refine List.Nodup.append ihf ih ?_
      intro k hk1 hk2
      obtain ⟨n, _, s, hs, _⟩ := leaves_key_shape fs (pfx ++ name ++ ".") k hk1
      exact leaves_key_name name rest pfx k ('.' :: (n.data ++ s)) h1 h2 h3
        (Or.inr ⟨_, rfl⟩) (by rw [hs]; simp [String.data_append]) hk2
    | ptr e => simpa only [Fields.leaves] using ih
    | nilPtr => simpa only [Fields.leaves] using ih
    | nilIface => simpa only [Fields.leaves] using ih
    | bool b => simpa only [Fields.leaves] using ih
    | int n => simpa only [Fields.leaves] using ih
    | other tag => simpa only [Fields.leaves] using ih

/-! ## Structural validation against flat validation -/

theorem keys_failures_subset (self : Rules) (params : GoMap String) (k : String)
    (h : k ∈ (failures self params).keys) : k ∈ params.keys := by
  induction params with
  | nil => simp [failures, GoMap.keys] at h
  | cons e t ih =>
    obtain ⟨k', v'⟩ := e
    rw [failures_cons] at h
    simp only [GoMap.keys, List.map_append, List.mem_append, List.map_cons, List.mem_cons] at h ih ⊢
    rcases h with h | h
    · cases hv : (ValidateKeyValue self k' v').1 <;> simp [hv] at h
      exact Or.inl h
    · exact Or.inr (ih h)

theorem nodup_keys_failures (self : Rules) (params : GoMap String) (h : params.keys.Nodup) :
    (failures self params).keys.Nodup := by
  induction params with
  | nil => simp [failures, GoMap.keys]
  | cons e t ih =>
    obtain ⟨k', v'⟩ := e
    have hn : k' ∉ GoMap.keys t ∧ (GoMap.keys t).Nodup := by
      simpa [GoMap.keys] using h
    rw [failures_cons]
    cases hv : (ValidateKeyValue self k' v').1
    · simp only [if_true, List.singleton_append]
      have h1 : k' ∉ (failures self t).keys := fun hm => hn.1 (keys_failures_subset self t k' hm)
      have h2 := ih hn.2
      simpa [GoMap.keys] using And.intro h1 h2
    · simpa using ih hn.2

theorem get?_failures (self : Rules) (params : GoMap String) (k : String)
    (h : params.keys.Nodup) :
    (failures self params).get? k =
      match params.get? k with
      | some v =>
        if (ValidateKeyValue self k v).1 = false then some (ValidateKeyValue self k v).2 else none
      | none => none := by
  induction params with
  | nil => simp [failures, GoMap.get?]
  | cons e t ih =>
    obtain ⟨k', v'⟩ := e
    have hn : k' ∉ GoMap.keys t ∧ (GoMap.keys t).Nodup := by
      simpa [GoMap.keys] using h
    rw [failures_cons, GoMap.get?_append]
    by_cases hk : k' = k
    · subst hk
      have h1 : (failures self t).get? k' = none :=
        (GoMap.not_mem_keys_iff _ _).1 (fun hm => hn.1 (keys_failures_subset self t k' hm))
      cases hv : (ValidateKeyValue self k' v').1 <;> simp [GoMap.get?, h1, hv]
    · rw [ih hn.2]
      cases hv : (ValidateKeyValue self k' v').1 <;> simp [GoMap.get?, hk, hv]

theorem isEmpty_failures (self : Rules) (params : GoMap String) (h : params.keys.Nodup) :
    (failures self params).isEmpty = (Validate self params).1 := by
  rw [Bool.eq_iff_iff, List.isEmpty_iff]
  constructor
  · intro he
    unfold Validate
    rw [foldl_validateEntry_fst]
    simp only [Bool.true_and, List.all_eq_true]
    intro k hk
    obtain ⟨v, hv⟩ := (GoMap.mem_keys_iff params k).1 hk
    have hg := get?_failures self params k h
    rw [he, hv] at hg
    cases hr : (ValidateKeyValue self k v).1
    · simp [GoMap.get?, hr] at hg
    · simp [hv, hr]
  · intro hv
    cases hf : failures self params with
    | nil => rfl
    | cons e t =>
      exfalso
      obtain ⟨k, ms⟩ := e
      have hg := get?_failures self params k h
      rw [hf] at hg
      simp only [GoMap.get?, if_true] at hg
      unfold Validate at hv
      rw [foldl_validateEntry_fst] at hv
      simp only [Bool.true_and, List.all_eq_true] at hv
      cases hp : params.get? k with
      | none => simp [hp] at hg
      | some v =>
        have hk : k ∈ params.keys := (GoMap.mem_keys_iff params k).2 ⟨v, hp⟩
        have := hv k hk
        simp only [hp, Option.getD_some] at this
        simp [hp, this] at hg

/-- On a record of a well-formed struct type whose `String`-kind fields are exported and of
type `string` and whose nested records are exported fields, `ValidateStruct` returns, and its
verdict and failure map are those of `Validate` on the flat map from each string leaf's dotted
path to its value. -/
theorem ValidateStruct_eq_Validate_leaves (self : Rules) (fs : Fields)
    (hp : fs.plain = true) (hw : fs.wellFormed = true) :
    ∃ M, ValidateStruct self (.struct fs) = some ((Validate self (fs.leaves "")).1, M) ∧
      ∀ k, M.get? k = (Validate self (fs.leaves "")).2.get? k := by
  have hn := nodup_keys_leaves fs "" hw
  obtain ⟨M, h1, h2, _⟩ := validateFields_plain self fs "" (true, []) hp
  refine ⟨M, ?_, ?_⟩
  · simp only [ValidateStruct, validateStructWithKeyPrefix, h1, Bool.true_and,
      isEmpty_failures self _ hn]
  · intro k
    rw [h2 k, GoMap.get?_reverse _ _ (nodup_keys_failures self _ hn), get?_failures self _ k hn,
      Validate_get?]
    simp [GoMap.get?, Option.or_none]

theorem ValidateStruct_eq_Validate_leaves_witness :
    ∃ M, ValidateStruct (Add (Add New "Name" NotEmpty "") "Inner.City" (EqualsAny ["x"]) "")
        (.struct (.cons "Name" true (.str false "")
          (.cons "Age" true (.int 3)
            (.cons "Inner" true (.struct (.cons "City" true (.str false "bad") .nil)) .nil)))) =
        some (false, M) ∧
      M.get? "Inner.City" = some ["Did not match the following: x"] := by
  obtain ⟨M, h1, h2⟩ := ValidateStruct_eq_Validate_leaves
    (Add (Add New "Name" NotEmpty "") "Inner.City" (EqualsAny ["x"]) "")
    (.cons "Name" true (.str false "")
      (.cons "Age" true (.int 3)
        (.cons "Inner" true (.struct (.cons "City" true (.str false "bad") .nil)) .nil)))
    (by decide) (by decide)
  exact ⟨M, h1, (h2 "Inner.City").trans (by decide)⟩

/-- On the same records `ValidateStruct` returns a result, also through a pointer. -/
theorem ValidateStruct_returns_of_plain (self : Rules) (fs : Fields) (hp : fs.plain = true) :
    (ValidateStruct self (.struct fs)).isSome = true ∧
    ValidateStruct self (.ptr (.struct fs)) = ValidateStruct self (.struct fs) := by
  obtain ⟨M, h1, _⟩ := validateFields_plain self fs "" (true, []) hp
  exact ⟨by simp [ValidateStruct, validateStructWithKeyPrefix, h1], rfl⟩

theorem ValidateStruct_returns_of_plain_witness :
    (ValidateStruct New (.struct (.cons "Name" true (.str false "x")
      (.cons "count" false (.int 3) .nil)))).isSome = true :=
  (ValidateStruct_returns_of_plain New
    (.cons "Name" true (.str false "x") (.cons "count" false (.int 3) .nil)) (by decide)).1

/-! ## The matcher: one lemma per construct -/

namespace Regex

theorem rmatch_zero (s : List Char) : rmatch zero s = false := by
  induction s with
  | nil => rfl
  | cons c t ih => simpa [rmatch, deriv] using ih

theorem rmatch_eps (s : List Char) : rmatch eps s = true ↔ s = [] := by
  cases s with
  | nil => simp [rmatch, nullable]
  | cons c t => simp [rmatch, deriv, rmatch_zero]

theorem rmatch_cls (ranges : List (Char × Char)) (s : List Char) :
    rmatch (cls ranges) s = true ↔ ∃ c, s = [c] ∧ inClass ranges c = true := by
  cases s with
  | nil => simp [rmatch, nullable]
  | cons c t =>
    simp only [rmatch, deriv]
    cases h : inClass ranges c
    · simp [rmatch_zero, h]
    · simp only [if_true, rmatch_eps]
      constructor
      · rintro rfl
        exact ⟨c, rfl, h⟩
      · rintro ⟨d, hd, _⟩
        exact (List.cons.inj hd).2

theorem rmatch_alt (r q : Regex) (s : List Char) :
    rmatch (alt r q) s = (rmatch r s || rmatch q s) := by
  induction s generalizing r q with
  | nil => rfl
  | cons c t ih => simp only [rmatch, deriv, ih]

theorem rmatch_cat (r q : Regex) (s : List Char) :
    rmatch (cat r q) s = true ↔
      ∃ t u, s = t ++ u ∧ rmatch r t = true ∧ rmatch q u = true := by
  induction s generalizing r with
  | nil =>
    simp only [rmatch, nullable, Bool.and_eq_true]
    constructor
    · intro h
      exact ⟨[], [], rfl, h.1, h.2⟩
    · rintro ⟨t, u, h, hr, hq⟩
      obtain ⟨rfl, rfl⟩ := List.append_eq_nil.1 h.symm
      exact ⟨hr, hq⟩
  | cons c s ih =>
    have step : (rmatch (cat (deriv r c) q) s = true ∨
          (nullable r = true ∧ rmatch (deriv q c) s = true)) ↔
        ∃ t u, c :: s = t ++ u ∧ rmatch r t = true ∧ rmatch q u = true := by
      rw [ih]
      constructor
      · rintro (⟨t, u, h, hr, hq⟩ | ⟨hn, hq⟩)
        · exact ⟨c :: t, u, by simp [h], hr, hq⟩
        · exact ⟨[], c :: s, rfl, hn, hq⟩
      · rintro ⟨t, u, h, hr, hq⟩
        cases t with
        | nil =>
          simp only [List.nil_append] at h
          subst h
          exact Or.inr ⟨hr, hq⟩
        | cons d t =>
          simp only [List.cons_append, List.cons.injEq] at h
          obtain ⟨rfl, rfl⟩ := h
          exact Or.inl ⟨t, u, rfl, hr, hq⟩
    rw [← step]
    simp only [rmatch, deriv]
    cases hn : nullable r
    · simp
    · simp [rmatch_alt]

theorem rmatch_cat_cls (ranges : List (Char × Char)) (q : Regex) (s : List Char) :
    rmatch (cat (cls ranges) q) s = true ↔
      ∃ c t, s = c :: t ∧ inClass ranges c = true ∧ rmatch q t = true := by
  rw [rmatch_cat]
  constructor
  · rintro ⟨t, u, h, hr, hq⟩
    obtain ⟨c, rfl, hc⟩ := (rmatch_cls ranges t).1 hr
    exact ⟨c, u, h, hc, hq⟩
  · rintro ⟨c, t, h, hc, hq⟩
    exact ⟨[c], t, h, (rmatch_cls ranges [c]).2 ⟨c, rfl, hc⟩, hq⟩

theorem rmatch_cat_cls_nil (ranges : List (Char × Char)) (q : Regex) :
    rmatch (cat (cls ranges) q) [] = false := by
  simp [rmatch, nullable]

theorem rmatch_cat_cls_cons (ranges : List (Char × Char)) (q : Regex) (c : Char)
    (t : List Char) :
    rmatch (cat (cls ranges) q) (c :: t) = (inClass ranges c && rmatch q t) := by
  rw [Bool.eq_iff_iff, rmatch_cat_cls, Bool.and_eq_true]
  constructor
  · rintro ⟨d, u, h, hc, hq⟩
    obtain ⟨rfl, rfl⟩ := List.cons.inj h
    exact ⟨hc, hq⟩
  · rintro ⟨hc, hq⟩
    exact ⟨c, t, rfl, hc, hq⟩

theorem rmatch_opt (r : Regex) (s : List Char) :
    rmatch (opt r) s = true ↔ s = [] ∨ rmatch r s = true := by
  simp [opt, rmatch_alt, rmatch_eps]

theorem rmatch_star_cls (ranges : List (Char × Char)) (s : List Char) :
    rmatch (star (cls ranges)) s = true ↔ ∀ c ∈ s, inClass ranges c = true := by
  induction s with
  | nil => simp [rmatch, nullable]
  | cons c t ih =>
    have h : rmatch (star (cls ranges)) (c :: t) =
        rmatch (cat (cls ranges) (star (cls ranges))) (c :: t) := by
      simp [rmatch, deriv, nullable]
    rw [h, rmatch_cat_cls_cons]
    simp [ih]

theorem rmatch_plus_cls (ranges : List (Char × Char)) (s : List Char) :
    rmatch (plus (cls ranges)) s = true ↔ s ≠ [] ∧ ∀ c ∈ s, inClass ranges c = true := by
  unfold plus
  cases s with
  | nil => simp [rmatch_cat_cls_nil]
  | cons c t => simp [rmatch_cat_cls_cons, rmatch_star_cls]

theorem rmatch_rep_cls (ranges : List (Char × Char)) (n : Nat) (s : List Char) :
    rmatch (rep n (cls ranges)) s = true ↔
      s.length = n ∧ ∀ c ∈ s, inClass ranges c = true := by
  induction n generalizing s with
  | zero =>
    simp only [rep, rmatch_eps, List.length_eq_zero]
    constructor
    · rintro rfl
      simp
    · exact fun h => h.1
  | succ n ih =>
    cases s with
    | nil => simp [rep, rmatch_cat_cls_nil]
    | cons c t =>
      simp only [rep, rmatch_cat_cls_cons, Bool.and_eq_true, ih, List.length_cons,
        Nat.add_right_cancel_iff, List.mem_cons, forall_eq_or_imp]
      tauto

end Regex

theorem MatchExpr_eq_none (value : String) (expr : Pattern) :
    MatchExpr value expr = none ↔ expr.body.rmatch value.data = true := by
  unfold MatchExpr
  split <;> simp [*]

/-! ## Character classes -/

theorem val_ge_iff (c : Char) (n : Nat) (h : n < UInt32.size) :
    c.val ≥ UInt32.ofNat n ↔ n ≤ c.toNat := by
  simp only [Char.toNat, ge_iff_le, UInt32.le_def, BitVec.le_def]
  have : (UInt32.ofNat n).toBitVec.toNat = n := by
    simp [UInt32.ofNat, Nat.mod_eq_of_lt h]
  rw [this]
  rfl

theorem val_le_iff (c : Char) (n : Nat) (h : n < UInt32.size) :
    c.val ≤ UInt32.ofNat n ↔ c.toNat ≤ n := by
  simp only [Char.toNat, UInt32.le_def, BitVec.le_def]
  have : (UInt32.ofNat n).toBitVec.toNat = n := by
    simp [UInt32.ofNat, Nat.mod_eq_of_lt h]
  rw [this]
  rfl

theorem isDigit_iff (c : Char) : c.isDigit = true ↔ 48 ≤ c.toNat ∧ c.toNat ≤ 57 := by
  have h1 := val_ge_iff c 48 (by decide)
  have h2 := val_le_iff c 57 (by decide)
  simp only [Char.isDigit, Bool.and_eq_true, decide_eq_true_eq]
  exact and_congr h1 h2

theorem isAlpha_iff (c : Char) :
    c.isAlpha = true ↔ (65 ≤ c.toNat ∧ c.toNat ≤ 90) ∨ (97 ≤ c.toNat ∧ c.toNat ≤ 122) := by
  have h1 := val_ge_iff c 65 (by decide)
  have h2 := val_le_iff c 90 (by decide)
  have h3 := val_ge_iff c 97 (by decide)
  have h4 := val_le_iff c 122 (by decide)
  simp only [Char.isAlpha, Char.isUpper, Char.isLower, Bool.or_eq_true, Bool.and_eq_true,
    decide_eq_true_eq]
  exact or_congr (and_congr h1 h2) (and_congr h3 h4)

theorem inClass_digit (c : Char) : inClass classDigit c = c.isDigit := by
  rw [Bool.eq_iff_iff, isDigit_iff]
  simp [inClass, classDigit]

theorem inClass_hexFold (c : Char) : inClass classHexFold c = isHexDigit c := by
  rw [Bool.eq_iff_iff]
  simp only [isHexDigit, isLowerHexDigit, Bool.or_eq_true, isDigit_iff, Bool.and_eq_true,
    decide_eq_true_eq]
  simp only [inClass, classHexFold, List.any_cons, List.any_nil, Bool.or_false, Bool.or_eq_true,
    decide_eq_true_eq]
  have e0 : '0'.toNat = 48 := rfl
  have e9 : '9'.toNat = 57 := rfl
  rw [e0, e9]
  tauto

theorem inClass_letterFold (c : Char) :
    inClass classLetterFold c = (c.isAlpha || isFoldExtra c) := by
  rw [Bool.eq_iff_iff]
  simp only [Bool.or_eq_true, isAlpha_iff, isFoldExtra, decide_eq_true_eq]
  simp only [inClass, classLetterFold, List.any_cons, List.any_nil, Bool.or_false,
    Bool.or_eq_true, decide_eq_true_eq]
  have eA : 'A'.toNat = 65 := rfl
  have eZ : 'Z'.toNat = 90 := rfl
  have ea : 'a'.toNat = 97 := rfl
  have ez : 'z'.toNat = 122 := rfl
  have e1 : '\u017f'.toNat = 0x17F := rfl
  have e2 : '\u212a'.toNat = 0x212A := rfl
  rw [eA, eZ, ea, ez, e1, e2]
  omega

theorem inClass_cons (r : Char × Char) (rs : List (Char × Char)) (c : Char) :
    inClass (r :: rs) c = (decide (r.1.toNat ≤ c.toNat ∧ c.toNat ≤ r.2.toNat) || inClass rs c) := by
  simp [inClass]

theorem inClass_alnumFold (c : Char) :
    inClass classAlnumFold c = (c.isAlphanum || isFoldExtra c) := by
  rw [classAlnumFold, inClass_cons, inClass_letterFold, Bool.eq_iff_iff]
  simp only [Char.isAlphanum, Bool.or_eq_true, decide_eq_true_eq, isDigit_iff]
  have e0 : '0'.toNat = 48 := rfl
  have e9 : '9'.toNat = 57 := rfl
  rw [e0, e9]
  tauto

theorem toNat_le_max (c : Char) : c.toNat ≤ 0x10FFFF := by
  have h := c.valid
  simp only [Char.toNat]
  rcases h with h | h
  · have : c.val.toNat < 0xD800 := h
    omega
  · have : c.val.toNat < 0x110000 := h.2
    omega

theorem eq_of_toNat_eq (c d : Char) (h : c.toNat = d.toNat) : c = d :=
  Char.ext (UInt32.ext h)

theorem inClass_dot (c : Char) :
    inClass [(Char.ofNat 0, Char.ofNat 9), (Char.ofNat 11, Char.ofNat 0x10FFFF)] c = true ↔
      c ≠ '\n' := by
  have e0 : (Char.ofNat 0).toNat = 0 := rfl
  have e9 : (Char.ofNat 9).toNat = 9 := rfl
  have e11 : (Char.ofNat 11).toNat = 11 := rfl
  have em : (Char.ofNat 0x10FFFF).toNat = 0x10FFFF := rfl
  have hmax := toNat_le_max c
  simp only [inClass, List.any_cons, List.any_nil, Bool.or_false, Bool.or_eq_true,
    decide_eq_true_eq, e0, e9, e11, em]
  constructor
  · intro h hc
    subst hc
    have : '\n'.toNat = 10 := rfl
    omega
  · intro h
    have : c.toNat ≠ 10 := fun h10 => h (eq_of_toNat_eq c '\n' h10)
    omega

theorem inClass_lit (a c : Char) : inClass [(a, a)] c = true ↔ c = a := by
  simp only [inClass, List.any_cons, List.any_nil, Bool.or_false, decide_eq_true_eq]
  constructor
  · intro h
    exact eq_of_toNat_eq c a (by omega)
  · rintro rfl
    exact ⟨le_refl _, le_refl _⟩

/-! ## Claims C11 - C17: the built-in rules -/

theorem rule_eq_none (value : String) (expr : Pattern) (msg : String) :
    (match MatchExpr value expr with
      | none => (none : GoError)
      | some _ => some msg) = none ↔ expr.body.rmatch value.data = true := by
  rw [← MatchExpr_eq_none]
  cases MatchExpr value expr <;> simp

/-- C11: the format rules accept the empty string: `Url("")`, `Email("")`, `Numeric("")`,
`Alpha("")`, `ObjectId("")` and `ZipCode("")` all return nil, while `NotEmpty("")` fails. -/
theorem format_rules_accept_empty :
    Url "" = none ∧ Email "" = none ∧ Numeric "" = none ∧ Alpha "" = none ∧
    ObjectId "" = none ∧ ZipCode "" = none ∧ NotEmpty "" = some "This value is required" := by
  decide

theorem Sha1_eq_none_iff (v : String) :
    Sha1 v = none ↔ v.length = 40 ∧ ∀ c ∈ v.data, isHexDigit c = true := by
  unfold Sha1
  rw [rule_eq_none]
  simp only [sha1Pattern, Regex.rmatch_rep_cls, inClass_hexFold, String.length]

/-- C12, as stated, fails: a value of 40 hexadecimal characters with capital letters among
them, which are not lower-case hexadecimal characters, is accepted by `Sha1`. -/
theorem Sha1_accepts_upper_case :
    Sha1 "8616FA4F0990C2D6BDD0CFB00789C3E47B9F65D6" = none ∧
    "8616FA4F0990C2D6BDD0CFB00789C3E47B9F65D6".length = 40 ∧
    isLowerHexDigit 'F' = false := by
  decide

/-- C12, amended: `Sha1(v)` returns a failure iff `v` is not exactly 40 hexadecimal characters
in either case (`0-9`, `a-f`, `A-F`); in particular `Sha1("")` fails. -/
theorem Sha1_spec (v : String) :
    (Sha1 v ≠ none ↔ ¬ (v.length = 40 ∧ ∀ c ∈ v.data, isHexDigit c = true)) ∧
    Sha1 "" ≠ none := by
  refine ⟨not_congr (Sha1_eq_none_iff v), ?_⟩
  decide

/-- C13 fails at the unescaped `.` of the pattern, which stands for any character where the
claim has a literal `'.'`: `Email` accepts `"test@testcom"`, which has no `'.'` after the
`'@'`, and `"a@b@cd"`, which has a second `'@'`. -/
theorem Email_accepts_without_dot :
    Email "test@testcom" = none ∧ Email "a@b@cd" = none ∧
    '.' ∉ "test@testcom".data ∧ "a@b@cd".data.count '@' = 2 := by
  decide

theorem Alpha_eq_none_iff (v : String) :
    Alpha v = none ↔ ∀ c ∈ v.data, c.isAlphanum = true ∨ isFoldExtra c = true := by
  unfold Alpha
  rw [rule_eq_none]
  simp only [alphaPattern, Regex.rmatch_opt, Regex.rmatch_plus_cls, inClass_alnumFold,
    Bool.or_eq_true]
  constructor
  · rintro (h | h)
    · simp [h]
    · exact h.2
  · intro h
    by_cases hv : v.data = []
    · exact Or.inl hv
    · exact Or.inr ⟨hv, h⟩

/-- C15 fails at the runes that fold to an ASCII letter under `(?i)`: `Alpha` accepts the
one-character values U+212A (Kelvin sign) and U+017F (long s), which are not ASCII letters
or digits. -/
theorem Alpha_accepts_fold_runes :
    Alpha "\u212a" = none ∧ Alpha "\u017f" = none ∧
    '\u212a'.isAlphanum = false ∧ '\u017f'.isAlphanum = false := by
  decide

/-- C16: `Numeric(v)` returns a failure iff `v` has a character that is not an ASCII digit,
and is valid iff every character of `v` is an ASCII digit (so for the empty string and for
digit strings of any length): `"43545345345"` is valid, `"a23"`, `"forty"` and `"5.0"` are
rejected. -/
theorem Numeric_spec (v : String) :
    (Numeric v ≠ none ↔ ∃ c ∈ v.data, c.isDigit = false) ∧
    (Numeric v = none ↔ ∀ c ∈ v.data, c.isDigit = true) ∧
    Numeric "43545345345" = none ∧ Numeric "a23" ≠ none ∧ Numeric "forty" ≠ none ∧
    Numeric "5.0" ≠ none := by
  have h : Numeric v = none ↔ ∀ c ∈ v.data, c.isDigit = true := by
    unfold Numeric
    rw [rule_eq_none]
    simp only [numericPattern, Regex.rmatch_opt, Regex.rmatch_plus_cls, inClass_digit]
    constructor
    · rintro (h | h)
      · simp [h]
      · exact h.2
    · intro h
      by_cases hv : v.data = []
      · exact Or.inl hv
      · exact Or.inr ⟨hv, h⟩
  refine ⟨?_, h, by decide, by decide, by decide, by decide⟩
  rw [ne_eq, h]
  simp

/-- C17: `EqualsAny(set)(v)` is valid iff `v` is equal to some member of `set`, so
`EqualsAny` of the empty list rejects every value, and a proper beginning of a member is
rejected. -/
theorem EqualsAny_spec (set : List String) (v : String) :
    (EqualsAny set v = none ↔ v ∈ set) ∧ EqualsAny [] v ≠ none ∧
    EqualsAny ["male", "female"] "femal" ≠ none := by
  refine ⟨?_, by simp [EqualsAny], by decide⟩
  unfold EqualsAny
  by_cases h : v ∈ set
  · have : set.any (fun x => decide (x = v)) = true := by
      simp only [List.any_eq_true, decide_eq_true_eq]
      exact ⟨v, h, rfl⟩
    simp [this, h]
  · have : set.any (fun x => decide (x = v)) = false := by
      rw [Bool.eq_false_iff]
      simp only [ne_eq, List.any_eq_true, decide_eq_true_eq, not_exists, not_and]
      intro x hx hxv
      exact h (hxv ▸ hx)
    simp [this, h]

/-! ## Claim C14: the rule `Url` -/

theorem data_eq_nil_iff (v : String) : v.data = [] ↔ v = "" := by
  constructor
  · intro h
    exact String.ext h
  · rintro rfl
    rfl

theorem not_newline_of_host (c : Char) (h : inClass classHostFold c = true) : c ≠ '\n' := by
  rintro rfl
  revert h
  decide

theorem rmatch_url_tail (tail : List Char) :
    Regex.rmatch (.cat (.star (.cls classHostFold)) (.plus .dot)) tail = true ↔
      tail ≠ [] ∧ ∀ c ∈ tail, c ≠ '\n' := by
  rw [Regex.rmatch_cat]
  simp only [Regex.dot, Regex.rmatch_star_cls, Regex.rmatch_plus_cls, inClass_dot]
  constructor
  · rintro ⟨t, u, rfl, ht, hu, hd⟩
    refine ⟨by simp [hu], ?_⟩
    intro c hc
    rcases List.mem_append.1 hc with h | h
    · exact not_newline_of_host c (ht c h)
    · exact hd c h
  · rintro ⟨hne, hd⟩
    exact ⟨[], tail, rfl, by simp, hne, hd⟩

theorem rmatch_url_rest (u : List Char) :
    Regex.rmatch (.cat (.lit ':') (.cat (.lit '/') (.cat (.lit '/')
        (.cat (.cls classAlnumFold)
          (.cat (.star (.cls classHostFold)) (.plus .dot)))))) u = true ↔
      ∃ h tail, u = ':' :: '/' :: '/' :: h :: tail ∧ inClass classAlnumFold h = true ∧
        tail ≠ [] ∧ ∀ c ∈ tail, c ≠ '\n' := by
  simp only [Regex.lit, Regex.rmatch_cat_cls, inClass_lit, rmatch_url_tail]
  constructor
  · rintro ⟨_, _, rfl, rfl, _, _, rfl, rfl, _, _, rfl, rfl, h, tail, rfl, hh, ht⟩
    exact ⟨h, tail, rfl, hh, ht⟩
  · rintro ⟨h, tail, rfl, hh, ht⟩
    exact ⟨_, _, rfl, rfl, _, _, rfl, rfl, _, _, rfl, rfl, h, tail, rfl, hh, ht⟩

theorem Url_eq_none_iff (v : String) :
    Url v = none ↔ v.data = [] ∨ ∃ scheme h tail,
      v.data = scheme ++ ':' :: '/' :: '/' :: h :: tail ∧ scheme ≠ [] ∧
      (∀ c ∈ scheme, inClass classLetterFold c = true) ∧ inClass classAlnumFold h = true ∧
      tail ≠ [] ∧ ∀ c ∈ tail, c ≠ '\n' := by
  unfold Url
  rw [rule_eq_none]
  simp only [urlPattern, Regex.rmatch_opt, Regex.rmatch_cat (.plus (.cls classLetterFold)),
    Regex.rmatch_plus_cls, rmatch_url_rest]
  constructor
  · rintro (h | ⟨t, u, hv, ⟨ht, hl⟩, h, tail, rfl, hh, htl⟩)
    · exact Or.inl h
    · exact Or.inr ⟨t, h, tail, hv, ht, hl, hh, htl⟩
  · rintro (h | ⟨t, h, tail, hv, ht, hl, hh, htl⟩)
    · exact Or.inl h
    · exact Or.inr ⟨t, _, hv, ⟨ht, hl⟩, h, tail, rfl, hh, htl⟩

/-- C14, as stated, fails in two ways. `"x://a"` is a letters-only scheme, `"://"` and a host
of one letter, and `Url` rejects it, because the pattern asks for one more character (`.+`)
after the first character of the host. And `Url` accepts the value with the scheme U+212A and
the value whose host starts with U+017F, runes that are not ASCII letters or digits but fold to
`k` and `s` under `(?i)`. -/
theorem Url_claim_counterexamples :
    Url "x://a" = some "Value must be an URL." ∧ 'x'.isAlpha = true ∧ 'a'.isAlphanum = true ∧
    Url "\u212a://ab" = none ∧ '\u212a'.isAlpha = false ∧
    Url "x://\u017fb" = none ∧ '\u017f'.isAlphanum = false := by
  decide

/-- C14, amended. If `v` is empty or is one or more ASCII letters, then `"://"`, then an ASCII
letter or digit, then one or more further characters none of which is a newline, then `Url(v)`
is valid. Conversely a valid `v` is empty or is a non-empty scheme, `"://"`, a host character
and one or more further characters none of which is a newline, where every scheme character
other than U+017F and U+212A is an ASCII letter and the host character, unless it is one of
these two runes, is an ASCII letter or digit. Every value made of a letters-only scheme,
`"://"` and a host of two or more ASCII letters or digits is accepted, and every accepted
non-empty value contains `"://"`. -/
theorem Url_spec (v : String) :
    ((v = "" ∨ ∃ scheme h tail,
        v.data = scheme ++ "://".data ++ h :: tail ∧ scheme ≠ [] ∧
        (∀ c ∈ scheme, c.isAlpha = true) ∧ h.isAlphanum = true ∧
        tail ≠ [] ∧ ∀ c ∈ tail, c ≠ '\n') → Url v = none) ∧
    (Url v = none → v = "" ∨ ∃ scheme h tail,
      v.data = scheme ++ "://".data ++ h :: tail ∧ scheme ≠ [] ∧
      (∀ c ∈ scheme, isFoldExtra c = false → c.isAlpha = true) ∧
      (isFoldExtra h = false → h.isAlphanum = true) ∧
      tail ≠ [] ∧ ∀ c ∈ tail, c ≠ '\n') ∧
    (∀ scheme host : List Char, scheme ≠ [] → (∀ c ∈ scheme, c.isAlpha = true) →
      2 ≤ host.length → (∀ c ∈ host, c.isAlphanum = true) →
      Url (String.mk (scheme ++ "://".data ++ host)) = none) ∧
    (Url v = none → v ≠ "" → "://".data <:+: v.data) := by
  have hdata : "://".data = [':', '/', '/'] := rfl
  refine ⟨?_, ?_, ?_, ?_⟩
  · rw [Url_eq_none_iff, data_eq_nil_iff, hdata]
    rintro (h | ⟨scheme, h, tail, hd, hs, hl, hh, ht⟩)
    · exact Or.inl h
    · refine Or.inr ⟨scheme, h, tail, by simpa using hd, hs, ?_, ?_, ht⟩
      · intro c hc
        rw [inClass_letterFold, hl c hc]
        rfl
      · rw [inClass_alnumFold, hh]
        rfl
  · rw [Url_eq_none_iff, data_eq_nil_iff, hdata]
    rintro (h | ⟨scheme, h, tail, hd, hs, hl, hh, ht⟩)
    · exact Or.inl h
    · refine Or.inr ⟨scheme, h, tail, by simpa using hd, hs, ?_, ?_, ht⟩
      · intro c hc hf
        have h1 := hl c hc
        rw [inClass_letterFold, hf] at h1
        simpa using h1
      · intro hf
        rw [inClass_alnumFold, hf] at hh
        simpa using hh
  · intro scheme host hs hl hlen hh
    rw [Url_eq_none_iff]
    match host, hlen, hh with
    | a :: b :: rest, _, hh =>
      refine Or.inr ⟨scheme, a, b :: rest, by simp [hdata], hs, ?_, ?_, by simp, ?_⟩
      · intro c hc
        rw [inClass_letterFold, hl c hc]
        rfl
      · rw [inClass_alnumFold, hh a (by simp)]
        rfl
      · intro c hc hn
        subst hn
        have := hh '\n' (List.mem_cons_of_mem _ hc)
        revert this
        decide
  · intro h hne
    rw [Url_eq_none_iff, data_eq_nil_iff] at h
    rcases h with h | ⟨scheme, h, tail, hd, _⟩
    · exact absurd h hne
    · exact ⟨scheme, h :: tail, by rw [hd, hdata]; simp⟩

theorem Url_spec_witness :
    Url "http://ab/\u212a" = none ∧ "://".data <:+: "http://ab/\u212a".data ∧
    Url "\u212a" ≠ none :=
  ⟨(Url_spec "http://ab/\u212a").1
      (Or.inr ⟨"http".data, 'a', "b/\u212a".data, by decide, by decide, by decide,
        by decide, by decide, by decide⟩),
    (Url_spec "http://ab/\u212a").2.2.2 (by decide) (by decide),
    fun h => absurd ((Url_spec "\u212a").2.2.2 h (by decide)) (by decide)⟩

/-! ## What `Email` accepts -/

theorem rmatch_email_domain (u : List Char) :
    Regex.rmatch (.cat (.plus (.cls classHostFold))
        (.cat .dot (.plus (.cls classLetterFold)))) u = true ↔
      ∃ dom x tld, u = dom ++ x :: tld ∧ dom ≠ [] ∧
        (∀ c ∈ dom, inClass classHostFold c = true) ∧ x ≠ '\n' ∧ tld ≠ [] ∧
        ∀ c ∈ tld, inClass classLetterFold c = true := by
  rw [Regex.rmatch_cat]
  simp only [Regex.dot, Regex.rmatch_cat_cls, Regex.rmatch_plus_cls, inClass_dot]
  constructor
  · rintro ⟨dom, _, rfl, ⟨hd, hh⟩, x, tld, rfl, hx, ht, hl⟩
    exact ⟨dom, x, tld, rfl, hd, hh, hx, ht, hl⟩
  · rintro ⟨dom, x, tld, rfl, hd, hh, hx, ht, hl⟩
    exact ⟨dom, _, rfl, ⟨hd, hh⟩, x, tld, rfl, hx, ht, hl⟩

/-- The values `Email` accepts: the empty string, and `local@domain`, any character but a
newline, and letters, where the pattern has its unescaped `.` before the last class. -/
theorem Email_eq_none_iff (v : String) :
    Email v = none ↔ v.data = [] ∨ ∃ a loc dom x tld,
      v.data = a :: loc ++ '@' :: (dom ++ x :: tld) ∧ inClass classAlnumFold a = true ∧
      (∀ c ∈ loc, inClass classLocalFold c = true) ∧ dom ≠ [] ∧
      (∀ c ∈ dom, inClass classHostFold c = true) ∧ x ≠ '\n' ∧ tld ≠ [] ∧
      ∀ c ∈ tld, inClass classLetterFold c = true := by
  unfold Email
  rw [rule_eq_none]
  simp only [emailPattern, Regex.rmatch_opt, Regex.rmatch_cat_cls,
    Regex.rmatch_cat (.star (.cls classLocalFold)), Regex.rmatch_star_cls, Regex.lit,
    inClass_lit, rmatch_email_domain]
  constructor
  · rintro (h | ⟨a, _, hv, ha, loc, _, rfl, hl, _, _, rfl, rfl, dom, x, tld, rfl, hr⟩)
    · exact Or.inl h
    · exact Or.inr ⟨a, loc, dom, x, tld, by simpa using hv, ha, hl, hr⟩
  · rintro (h | ⟨a, loc, dom, x, tld, hv, ha, hl, hr⟩)
    · exact Or.inl h
    · exact Or.inr ⟨a, _, by simpa using hv, ha, loc, _, rfl, hl, _, _, rfl, rfl,
        dom, x, tld, rfl, hr⟩

/-! ## Claim C19: `Add` only appends to the output -/

theorem failureMessages_append (cs ds : List Constraint) (v : String) :
    failureMessages (cs ++ ds) v = failureMessages cs v ++ failureMessages ds v := by
  simp [failureMessages, List.filterMap_append]

theorem constraintsOf_Add_ne (self : Rules) (f g : String) (R : Rule) (m : String)
    (h : g ≠ f) : constraintsOf (Add self f R m) g = constraintsOf self g := by
  unfold constraintsOf
  rw [get?_Add_ne self f g R m h]

/-- C19: after `Add(f, R, m)` the messages of `ValidateKeyValue(f, v)` are the messages it
returned before, followed by one message if `R` fails on `v` (`m` when `m` is non-empty, else
the reason of `R`) and by nothing if `R` accepts `v`; the verdict is the old verdict AND the
verdict of `R`; for every `g` other than `f` the result of `ValidateKeyValue(g, v)` is
unchanged. -/
theorem Add_appends_messages (self : Rules) (f g : String) (R : Rule) (m v : String) :
    (ValidateKeyValue (Add self f R m) f v).2 =
      (ValidateKeyValue self f v).2 ++
        (match R v with
          | some reason => [if m = "" then reason else m]
          | none => []) ∧
    (ValidateKeyValue (Add self f R m) f v).1 =
      ((ValidateKeyValue self f v).1 && (R v).isNone) ∧
    (g ≠ f → ValidateKeyValue (Add self f R m) g v = ValidateKeyValue self g v) := by
  refine ⟨?_, ?_, ?_⟩
  · rw [ValidateKeyValue_eq, ValidateKeyValue_eq, constraintsOf_Add_self,
      failureMessages_append]
    cases hr : R v with
    | none => simp [failureMessages, hr]
    | some reason =>
      by_cases hm : m = "" <;>
        simp [failureMessages, failureMessage, hr, overrideOf, hm]
  · rw [ValidateKeyValue_eq, ValidateKeyValue_eq, constraintsOf_Add_self]
    simp [List.all_append]
  · intro h
    rw [ValidateKeyValue_eq, ValidateKeyValue_eq, constraintsOf_Add_ne self f g R m h]

theorem Add_appends_messages_witness :
    ValidateKeyValue (Add (Add New "a" NotEmpty "") "b" Numeric "digits only") "a" "" =
      ValidateKeyValue (Add New "a" NotEmpty "") "a" "" ∧
    (ValidateKeyValue (Add (Add New "a" NotEmpty "") "a" Sha1 "") "a" "").2 =
      ["This value is required", "Value must be a SHA1 hash."] :=
  ⟨(Add_appends_messages (Add New "a" NotEmpty "") "b" "a" Numeric "digits only" "").2.2
      (by decide), by decide⟩

/-! ## Claim C20: the enumeration order of the input map -/

theorem GoMap.mem_of_get? {α : Type} (m : GoMap α) (k : String) (v : α)
    (h : m.get? k = some v) : (k, v) ∈ m := by
  induction m with
  | nil => simp [GoMap.get?] at h
  | cons e t ih =>
    obtain ⟨k', v'⟩ := e
    by_cases hk : k' = k
    · subst hk
      simp only [GoMap.get?, if_true, Option.some.injEq] at h
      subst h
      exact List.mem_cons_self _ _
    · simp only [GoMap.get?, hk, if_false] at h
      exact List.mem_cons_of_mem _ (ih h)

theorem GoMap.get?_of_mem {α : Type} (m : GoMap α) (k : String) (v : α)
    (hn : m.keys.Nodup) (h : (k, v) ∈ m) : m.get? k = some v := by
  induction m with
  | nil => simp at h
  | cons e t ih =>
    obtain ⟨k', v'⟩ := e
    have hn' : k' ∉ GoMap.keys t ∧ (GoMap.keys t).Nodup := by
      simpa [GoMap.keys] using hn
    rcases List.mem_cons.1 h with h | h
    · obtain ⟨rfl, rfl⟩ := Prod.mk.inj h
      simp [GoMap.get?]
    · have hk : k' ≠ k := by
        rintro rfl
        exact hn'.1 (List.mem_map_of_mem Prod.fst h)
      simp only [GoMap.get?, hk, if_false]
      exact ih hn'.2 h

theorem GoMap.get?_perm {α : Type} (p q : GoMap α) (k : String)
    (hperm : List.Perm p q) (hn : p.keys.Nodup) : p.get? k = q.get? k := by
  have hq : q.keys.Nodup := (List.Perm.map Prod.fst hperm).nodup_iff.1 hn
  cases hp : p.get? k with
  | some v =>
    exact (GoMap.get?_of_mem q k v hq (hperm.mem_iff.1 (GoMap.mem_of_get? p k v hp))).symm
  | none =>
    cases hq' : q.get? k with
    | none => rfl
    | some v =>
      have := GoMap.get?_of_mem p k v hn (hperm.mem_iff.2 (GoMap.mem_of_get? q k v hq'))
      rw [hp] at this
      exact this

/-- C20: `Validate` does not depend on the order in which the entries of the input map are
visited. For two enumerations of the same key/value pairs with distinct keys it returns the
same verdict and the same failure map: the same lookup result under every key. -/
theorem Validate_enumeration_independent (self : Rules) (p q : GoMap String)
    (hperm : List.Perm p q) (hn : p.keys.Nodup) :
    (Validate self p).1 = (Validate self q).1 ∧
    ∀ k, (Validate self p).2.get? k = (Validate self q).2.get? k := by
  have hg : ∀ k, p.get? k = q.get? k := fun k => GoMap.get?_perm p q k hperm hn
  refine ⟨?_, ?_⟩
  · unfold Validate
    rw [foldl_validateEntry_fst, foldl_validateEntry_fst, Bool.eq_iff_iff]
    simp only [Bool.true_and, List.all_eq_true, hg]
    have hk : ∀ k, k ∈ GoMap.keys p ↔ k ∈ GoMap.keys q :=
      fun k => (List.Perm.map Prod.fst hperm).mem_iff
    constructor
    · intro h k hk'
      exact h k ((hk k).2 hk')
    · intro h k hk'
      exact h k ((hk k).1 hk')
  · intro k
    rw [Validate_get?, Validate_get?, hg k]

theorem Validate_enumeration_independent_witness :
    Validate (Add (Add New "a" Numeric "") "b" Numeric "") [("a", "1"), ("b", "x")] =
      (false, [("b", ["Value must be a number."])]) ∧
    (Validate (Add (Add New "a" Numeric "") "b" Numeric "") [("a", "1"), ("b", "x")]).1 =
      (Validate (Add (Add New "a" Numeric "") "b" Numeric "") [("b", "x"), ("a", "1")]).1 :=
  ⟨by decide,
    (Validate_enumeration_independent (Add (Add New "a" Numeric "") "b" Numeric "")
      [("a", "1"), ("b", "x")] [("b", "x"), ("a", "1")]
      (List.Perm.swap _ _ _) (by decide)).1⟩

/-! ## Claim C18: verdict and failure map agree -/

theorem messages_ne_nil_of_invalid (self : Rules) (k v : String)
    (h : (ValidateKeyValue self k v).1 = false) : (ValidateKeyValue self k v).2 ≠ [] := by
  rw [ValidateKeyValue_eq] at h ⊢
  simp only at h ⊢
  intro hnil
  have hlen := length_failureMessages (constraintsOf self k) v
  rw [hnil, List.length_nil] at hlen
  have hall : (constraintsOf self k).all (fun c => (c.Rule v).isNone) = true := by
    rw [List.all_eq_true]
    intro c hc
    have := List.countP_eq_zero.1 hlen.symm c hc
    cases hr : c.Rule v <;> simp [hr] at this ⊢
  rw [hall] at h
  exact Bool.noConfusion h

theorem GoMap.set_ne_nil {α : Type} (m : GoMap α) (k : String) (v : α) : m.set k v ≠ [] := by
  cases m with
  | nil => simp [GoMap.set]
  | cons e t =>
    obtain ⟨k', v'⟩ := e
    by_cases h : k' = k <;> simp [GoMap.set, h]

theorem GoMap.mem_set {α : Type} (m : GoMap α) (k : String) (v : α) (e : String × α)
    (h : e ∈ m.set k v) : e = (k, v) ∨ e ∈ m := by
  induction m with
  | nil => simpa [GoMap.set] using h
  | cons x t ih =>
    obtain ⟨k', v'⟩ := x
    by_cases hk : k' = k
    · simp only [GoMap.set, hk, if_true, List.mem_cons] at h
      rcases h with h | h
      · exact Or.inl h
      · exact Or.inr (List.mem_cons_of_mem _ h)
    · simp only [GoMap.set, hk, if_false, List.mem_cons] at h
      rcases h with h | h
      · exact Or.inr (h ▸ List.mem_cons_self _ _)
      · rcases ih h with h' | h'
        · exact Or.inl h'
        · exact Or.inr (List.mem_cons_of_mem _ h')

theorem Agrees_start : Agrees (true, []) := by
  simp [Agrees]

theorem Agrees_set (st : Bool × GoMap (List String)) (k : String) (ms : List String)
    (h : Agrees st) (hms : ms ≠ []) : Agrees (false, st.2.set k ms) := by
  refine ⟨by simp [GoMap.set_ne_nil], ?_⟩
  intro e he
  rcases GoMap.mem_set st.2 k ms e he with rfl | h'
  · exact hms
  · exact h.2 e h'

theorem mergeInto_ne_nil (e m : GoMap (List String)) (h : m ≠ [] ∨ e ≠ []) :
    mergeInto m e ≠ [] := by
  induction e generalizing m with
  | nil => simpa [mergeInto] using h
  | cons kv t ih => exact ih _ (Or.inl (GoMap.set_ne_nil m kv.1 kv.2))

theorem mem_mergeInto (e m : GoMap (List String)) (x : String × List String)
    (h : x ∈ mergeInto m e) : x ∈ m ∨ x ∈ e := by
  induction e generalizing m with
  | nil => exact Or.inl h
  | cons kv t ih =>
    rcases ih (m.set kv.1 kv.2) h with h' | h'
    · rcases GoMap.mem_set m kv.1 kv.2 x h' with rfl | h''
      · exact Or.inr (List.mem_cons_self _ _)
      · exact Or.inl h''
    · exact Or.inr (List.mem_cons_of_mem _ h')

theorem Agrees_merge (st r : Bool × GoMap (List String)) (hst : Agrees st) (hr : Agrees r) :
    Agrees (if r.1 = false then (false, mergeInto st.2 r.2) else st) := by
  cases h : r.1
  · have hne : r.2 ≠ [] := fun hnil => by
      have := hr.1.2 hnil
      rw [h] at this
      exact Bool.noConfusion this
    refine ⟨by simp [mergeInto_ne_nil r.2 st.2 (Or.inr hne)], ?_⟩
    intro e he
    rcases mem_mergeInto r.2 st.2 e he with h' | h'
    · exact hst.2 e h'
    · exact hr.2 e h'
  · simpa using hst

theorem Agrees_validateEntry (self : Rules) (params : GoMap String)
    (st : Bool × GoMap (List String)) (key : String) (h : Agrees st) :
    Agrees (validateEntry self params st key) := by
  simp only [validateEntry]
  split
  · rename_i hv
    exact Agrees_set st key _ h (messages_ne_nil_of_invalid self key _ hv)
  · exact h

theorem Agrees_Validate (self : Rules) (params : GoMap String) :
    Agrees (Validate self params) := by
  unfold Validate
  have : ∀ (ks : List String) (st : Bool × GoMap (List String)), Agrees st →
      Agrees (ks.foldl (validateEntry self params) st) := by
    intro ks
    induction ks with
    | nil => exact fun st h => h
    | cons k t ih => exact fun st h => ih _ (Agrees_validateEntry self params st k h)
  exact this _ _ Agrees_start

theorem Agrees_validateFields (self : Rules) :
    ∀ (fs : Fields) (pfx : String) (st res : Bool × GoMap (List String)),
      Agrees st → validateFields self pfx fs st = some res → Agrees res
  | .nil, _, st, res, h, hres => by
    simp only [validateFields, Option.some.injEq] at hres
    exact hres ▸ h
  | .cons name exported v rest, pfx, st, res, h, hres => by
    cases v with
    | str defined s =>
      simp only [validateFields] at hres
      split at hres
      · refine Agrees_validateFields self rest pfx _ res ?_ hres
        cases hv : (ValidateKeyValue self (pfx ++ name) s).1
        · simpa using Agrees_set st _ _ h (messages_ne_nil_of_invalid self _ _ hv)
        · simpa using h
      · exact Option.noConfusion hres
    | struct fs =>
      simp only [validateFields, validateStructWithKeyPrefix] at hres
      split at hres
      · split at hres
        · rename_i r hr
          have hAr : Agrees r :=
            Agrees_validateFields self fs (pfx ++ name ++ ".") (true, []) r Agrees_start hr
          exact Agrees_validateFields self rest pfx _ res (Agrees_merge st r h hAr) hres
        · exact Option.noConfusion hres
      · exact Option.noConfusion hres
    | ptr e =>
      simp only [validateFields] at hres
      exact Agrees_validateFields self rest pfx st res h hres
    | nilPtr =>
      simp only [validateFields] at hres
      exact Agrees_validateFields self rest pfx st res h hres
    | nilIface =>
      simp only [validateFields] at hres
      exact Agrees_validateFields self rest pfx st res h hres
    | bool b =>
      simp only [validateFields] at hres
      exact Agrees_validateFields self rest pfx st res h hres
    | int n =>
      simp only [validateFields] at hres
      exact Agrees_validateFields self rest pfx st res h hres
    | other tag =>
      simp only [validateFields] at hres
      exact Agrees_validateFields self rest pfx st res h hres

theorem Agrees_ValidateStruct (self : Rules) (s : Value) (res : Bool × GoMap (List String))
    (h : ValidateStruct self s = some res) : Agrees res := by
  unfold ValidateStruct at h
  cases s with
  | struct fs =>
    exact Agrees_validateFields self fs "" (true, []) res Agrees_start
      (by simpa only [validateStructWithKeyPrefix] using h)
  | ptr e =>
    cases e with
    | struct fs =>
      exact Agrees_validateFields self fs "" (true, []) res Agrees_start
        (by simpa only [validateStructWithKeyPrefix] using h)
    | _ => simp [validateStructWithKeyPrefix] at h
  | _ => simp [validateStructWithKeyPrefix] at h

theorem Agrees_iff (st : Bool × GoMap (List String)) (h : Agrees st) :
    (st.1 = true ↔ st.2.keys = []) ∧ ∀ k ms, st.2.get? k = some ms → ms ≠ [] := by
  refine ⟨?_, ?_⟩
  · rw [h.1]
    simp [GoMap.keys]
  · intro k ms hk
    exact h.2 (k, ms) (GoMap.mem_of_get? st.2 k ms hk)

/-- C18: the verdict and the failure map returned by `Validate`, and by `ValidateStruct`
whenever it returns, agree: `valid` is true iff the failure map has no keys, and every message
list stored in the failure map is non-empty. -/
theorem verdict_agrees_with_failures (self : Rules) (params : GoMap String) (s : Value)
    (res : Bool × GoMap (List String)) (h : ValidateStruct self s = some res) :
    ((Validate self params).1 = true ↔ (Validate self params).2.keys = []) ∧
    (∀ k ms, (Validate self params).2.get? k = some ms → ms ≠ []) ∧
    (res.1 = true ↔ res.2.keys = []) ∧
    (∀ k ms, res.2.get? k = some ms → ms ≠ []) :=
  ⟨(Agrees_iff _ (Agrees_Validate self params)).1,
    (Agrees_iff _ (Agrees_Validate self params)).2,
    (Agrees_iff _ (Agrees_ValidateStruct self s res h)).1,
    (Agrees_iff _ (Agrees_ValidateStruct self s res h)).2⟩

theorem verdict_agrees_with_failures_witness :
    ValidateStruct (Add (Add New "Name" NotEmpty "") "Inner.City" Alpha "")
        (.struct (.cons "Name" true (.str false "")
          (.cons "Inner" true (.struct (.cons "City" true (.str false "b d") .nil)) .nil))) =
      some (false, [("Name", ["This value is required"]),
        ("Inner.City",
          ["Value must be a number or a letter from A to Z (case does not matter)."])]) ∧
    ((false, [("Name", ["This value is required"]),
        ("Inner.City",
          ["Value must be a number or a letter from A to Z (case does not matter)."])]).1 =
        true ↔
      GoMap.keys (false, [("Name", ["This value is required"]),
        ("Inner.City",
          ["Value must be a number or a letter from A to Z (case does not matter)."])]).2 =
        []) :=
  ⟨by decide,
    (verdict_agrees_with_failures
      (Add (Add New "Name" NotEmpty "") "Inner.City" Alpha "") [("Name", "")]
      (.struct (.cons "Name" true (.str false "")
        (.cons "Inner" true (.struct (.cons "City" true (.str false "b d") .nil)) .nil)))
      _ (by decide)).2.2.1⟩

/-- The nested record `Outer{Name: "", Inner{City: "bad"}}` with `NotEmpty` under `"Name"`
and `Alpha` under `"Inner.City"`: `Alpha` accepts `"bad"`, so the only failure is `"Name"`. -/
theorem ValidateStruct_nested_example :
    ValidateStruct (Add (Add New "Name" NotEmpty "") "Inner.City" Alpha "")
        (.struct (.cons "Name" true (.str false "")
          (.cons "Inner" true (.struct (.cons "City" true (.str false "bad") .nil)) .nil))) =
      some (false, [("Name", ["This value is required"])]) := by
  decide

end Validation
